import Mathlib

/- Shallow embedding of the large-loss threshold notebook
   (src/ll_threshold_experiment.ipynb).  Dates are month indices (a
   quarter is three consecutive months), money amounts are rationals.
   The chainladder development/Mack fit is the external collaborator of
   the system and is modelled as a parameter mapping a triangle to a
   standard-error matrix. -/
/-- A paid transaction row of paid_data (one row of sheet
    RW Gross_Net Paid 122023 after renaming). -/
structure PaidTxn where
  claim_id : String
  segment : String
  loss_date : Option Nat
  transaction_date : Nat
  gross_paid : ℚ
  net_paid : ℚ
  deriving DecidableEq

/-- An outstanding-reserve transaction row of ocr_data (one row of sheet
    RW Gross_Net RBNS 122023 after renaming and loss-date normalisation). -/
structure OcrTxn where
  claim_id : String
  segment : String
  loss_date : Option Nat
  transaction_date : Nat
  gross_ocr : ℚ
  net_ocr : ℚ
  deriving DecidableEq

/-- An aggregated claim row (a row of ocr_claims, paid_claims or
    combined_df). -/
structure ClaimRow where
  claim_id : String
  segment : String
  loss_date : Option Nat
  gross_amount : ℚ
  net_amount : ℚ
  deriving DecidableEq

/-- The grouping key used by all GROUP BY / groupby operations. -/
abbrev GroupKey := String × String × Option Nat

def paidKey (t : PaidTxn) : GroupKey := (t.claim_id, t.segment, t.loss_date)

def ocrKey (t : OcrTxn) : GroupKey := (t.claim_id, t.segment, t.loss_date)

def rowKey (r : ClaimRow) : GroupKey := (r.claim_id, r.segment, r.loss_date)

/-- Order on optional loss dates, with a missing date sorting first. -/
def optNatLE : Option Nat → Option Nat → Prop
  | none, _ => True
  | some _, none => False
  | some a, some b => a ≤ b

instance : DecidableRel optNatLE := fun a b => by
  cases a <;> cases b <;> simp only [optNatLE] <;> infer_instance

/-- Lexicographic order on grouping keys: claim_id, then segment, then
    loss_date.  pandas groupby (sort=True) returns groups in this order. -/
def keyLE (a b : GroupKey) : Prop :=
  a.1 < b.1 ∨ (a.1 = b.1 ∧ (a.2.1 < b.2.1 ∨ (a.2.1 = b.2.1 ∧ optNatLE a.2.2 b.2.2)))

instance : DecidableRel keyLE := fun a b => by
  unfold keyLE; infer_instance

instance : IsTotal GroupKey keyLE := by
  constructor
  intro a b
  have optNatLE_total : ∀ x y : Option Nat, optNatLE x y ∨ optNatLE y x := by
    intro x y
    cases x <;> cases y <;>
      first
        | exact Or.inl trivial
        | exact Or.inr trivial
        | exact Nat.le_total _ _
  rcases lt_trichotomy a.1 b.1 with h | h | h
  · exact Or.inl (Or.inl h)
  · rcases lt_trichotomy a.2.1 b.2.1 with h2 | h2 | h2
    · exact Or.inl (Or.inr ⟨h, Or.inl h2⟩)
    · rcases optNatLE_total a.2.2 b.2.2 with h3 | h3
      · exact Or.inl (Or.inr ⟨h, Or.inr ⟨h2, h3⟩⟩)
      · exact Or.inr (Or.inr ⟨h.symm, Or.inr ⟨h2.symm, h3⟩⟩)
    · exact Or.inr (Or.inr ⟨h.symm, Or.inl h2⟩)
  · exact Or.inr (Or.inl h)

instance : IsTrans GroupKey keyLE := by
  constructor
  intro a b c hab hbc
  have optNatLE_trans : ∀ {x y z : Option Nat}, optNatLE x y → optNatLE y z →
      optNatLE x z := by
    intro x y z h1 h2
    cases x <;> cases y <;> cases z <;> simp only [optNatLE] at h1 h2 ⊢ <;> omega
  rcases hab with h1 | ⟨e1, h1⟩
  · rcases hbc with h2 | ⟨e2, _⟩
    · exact Or.inl (lt_trans h1 h2)
    · exact Or.inl (e2 ▸ h1)
  · rcases hbc with h2 | ⟨e2, h2⟩
    · exact Or.inl (e1 ▸ h2)
    · refine Or.inr ⟨e1.trans e2, ?_⟩
      rcases h1 with h1 | ⟨f1, h1⟩
      · rcases h2 with h2 | ⟨f2, _⟩
        · exact Or.inl (lt_trans h1 h2)
        · exact Or.inl (f2 ▸ h1)
      · rcases h2 with h2 | ⟨f2, h2⟩
        · exact Or.inl (f1 ▸ h2)
        · exact Or.inr ⟨f1.trans f2, optNatLE_trans h1 h2⟩

instance : IsAntisymm GroupKey keyLE := by
  constructor
  intro a b hab hba
  have optNatLE_antisymm : ∀ {x y : Option Nat}, optNatLE x y → optNatLE y x →
      x = y := by
    intro x y h1 h2
    cases x <;> cases y
    case none.none => rfl
    case none.some => simp only [optNatLE] at h2
    case some.none => simp only [optNatLE] at h1
    case some.some => exact congrArg some (Nat.le_antisymm h1 h2)
  obtain ⟨a1, a2, a3⟩ := a
  obtain ⟨b1, b2, b3⟩ := b
  rcases hab with h1 | ⟨e1, h1⟩
  · rcases hba with h2 | ⟨e2, h2⟩
    · exact absurd h2 (lt_asymm h1)
    · exact absurd e2.symm (ne_of_lt h1)
  · rcases hba with h2 | ⟨e2, h2⟩
    · exact absurd e1.symm (ne_of_lt h2)
    · rcases h1 with h1 | ⟨f1, h1⟩
      · rcases h2 with h2 | ⟨f2, h2⟩
        · exact absurd h2 (lt_asymm h1)
        · exact absurd f2.symm (ne_of_lt h1)
      · rcases h2 with h2 | ⟨f2, h2⟩
        · exact absurd f1.symm (ne_of_lt h2)
        · simp only [Prod.mk.injEq]
          exact ⟨e1, f1, optNatLE_antisymm h1 h2⟩

/-- SQL MAX over a group (the group is always nonempty in the code). -/
def list_max : List ℚ → ℚ
  | [] => 0
  | x :: xs => xs.foldl max x

/-- The distinct grouping keys in canonical (sorted) order, as pandas
    groupby with sort=True and the SQLite GROUP BY produce them. -/
def group_keys (ks : List GroupKey) : List GroupKey :=
  List.insertionSort keyLE ks.dedup

/-- Cell 1.1 ocr_claims: GROUP BY claim_id, segment, loss_date with
    MAX(gross_ocr) / MAX(net_ocr), then dropna(subset=["loss_date"]). -/
def ocr_claims (ocr : List OcrTxn) : List ClaimRow :=
  ((group_keys (ocr.map ocrKey)).filter fun k => decide (k.2.2 ≠ none)).map fun k =>
    ⟨k.1, k.2.1, k.2.2,
      list_max ((ocr.filter fun t => decide (ocrKey t = k)).map OcrTxn.gross_ocr),
      list_max ((ocr.filter fun t => decide (ocrKey t = k)).map OcrTxn.net_ocr)⟩

/-- Cell 1.1 paid_claims: GROUP BY claim_id, segment, loss_date with
    SUM(gross_paid) / SUM(net_paid), then dropna(subset=["loss_date"]). -/
def paid_claims (paid : List PaidTxn) : List ClaimRow :=
  ((group_keys (paid.map paidKey)).filter fun k => decide (k.2.2 ≠ none)).map fun k =>
    ⟨k.1, k.2.1, k.2.2,
      ((paid.filter fun t => decide (paidKey t = k)).map PaidTxn.gross_paid).sum,
      ((paid.filter fun t => decide (paidKey t = k)).map PaidTxn.net_paid).sum⟩

/-- Cell 1.1 combined_df: concat of ocr_claims and paid_claims, then
    groupby(claim_id, segment, loss_date).agg(sum).reset_index(). -/
def combined_df (paid : List PaidTxn) (ocr : List OcrTxn) : List ClaimRow :=
  let all := ocr_claims ocr ++ paid_claims paid
  (group_keys (all.map rowKey)).map fun k =>
    ⟨k.1, k.2.1, k.2.2,
      ((all.filter fun r => decide (rowKey r = k)).map ClaimRow.gross_amount).sum,
      ((all.filter fun r => decide (rowKey r = k)).map ClaimRow.net_amount).sum⟩

/-- The sort relation of sort_values(by='gross_amount', ascending=False):
    gross amount non-increasing. -/
def claimGE (a b : ClaimRow) : Prop := b.gross_amount ≤ a.gross_amount

instance : DecidableRel claimGE := fun a b => by
  unfold claimGE; infer_instance

instance : IsTotal ClaimRow claimGE := ⟨fun a b => le_total b.gross_amount a.gross_amount⟩

instance : IsTrans ClaimRow claimGE := ⟨fun _ _ _ h1 h2 => le_trans h2 h1⟩

/-- sort_values(by='gross_amount', ascending=False): the pandas call
    sorts on the single key gross_amount with the default quicksort,
    which is not stable and has no tie-break key, so its only guarantee
    is the contract is_sort_values_output below.  This executable model
    returns one admissible output; whenever the gross amounts are
    pairwise distinct (true of every concrete input used in this file)
    the admissible output is unique, so the model then agrees with the
    program (see sorted_values_unique_of_distinct). -/
def sort_values (l : List ClaimRow) : List ClaimRow := List.insertionSort claimGE l

/-- Everything pandas guarantees about
    sort_values(by='gross_amount', ascending=False): the output is a
    permutation of the input that is non-increasing in gross_amount.
    The relative order of rows with equal gross_amount is unspecified
    (default kind is quicksort, which is not stable). -/
def is_sort_values_output (l out : List ClaimRow) : Prop :=
  List.Perm out l ∧ List.Pairwise claimGE out

/-- The sweep configuration of cell 1.2: start_point, increment and the
    number of increments (interval = int(round((start-end)/increment))). -/
structure SweepCfg where
  start_point : ℚ
  increment : ℚ
  interval : Nat

/-- one_percent_index = int(len(claims) * increment * i): the cutoff index
    at step i for a segment with n aggregated claims. -/
def one_percent_index (cfg : SweepCfg) (n : Nat) (i : Nat) : Nat :=
  (Int.floor ((n : ℚ) * (cfg.increment * i))).toNat

/-- attritional_claims at step i: the descending sort of the segment's
    combined_df rows with the top one_percent_index rows dropped. -/
def attritional_claims (cfg : SweepCfg) (df : List ClaimRow) (i : Nat) : List ClaimRow :=
  (sort_values df).drop (one_percent_index cfg df.length i)

/-- pandas inner merge of a transaction table with the claim_id column of
    the retained claim rows: each transaction is kept once per retained
    row sharing its claim_id. -/
def mergeTx {α : Type} (cid : α → String) (txns : List α) (rows : List ClaimRow) : List α :=
  txns.flatMap fun t => (rows.filter fun r => decide (r.claim_id = cid t)).map fun _ => t

/-- One iteration of the sweep loop body acting on the running
    (segment_paid, segment_ocr) state: when one_percent_index > 0 both
    tables are merged against the step's attritional claim_ids. -/
def step_filter (cfg : SweepCfg) (df : List ClaimRow) (i : Nat)
    (po : List PaidTxn × List OcrTxn) : List PaidTxn × List OcrTxn :=
  if 0 < one_percent_index cfg df.length i then
    (mergeTx PaidTxn.claim_id po.1 (attritional_claims cfg df i),
     mergeTx OcrTxn.claim_id po.2 (attritional_claims cfg df i))
  else po

/-- The (segment_paid, segment_ocr) state after the loop body of step i
    has run (the merges are cumulative across steps). -/
def sweep_sets (cfg : SweepCfg) (df : List ClaimRow) (p : List PaidTxn) (o : List OcrTxn) :
    Nat → List PaidTxn × List OcrTxn
  | 0 => step_filter cfg df 0 (p, o)
  | i + 1 => step_filter cfg df (i + 1) (sweep_sets cfg df p o i)

/-- The mack_mse series recorded by the loop, for a per-step metric
    engine E applied to the filtered transaction tables. -/
def mack_mse_series (E : List PaidTxn → List OcrTxn → ℚ) (cfg : SweepCfg)
    (df : List ClaimRow) (p : List PaidTxn) (o : List OcrTxn) : List ℚ :=
  (List.range (cfg.interval + 1)).map fun i =>
    E (sweep_sets cfg df p o i).1 (sweep_sets cfg df p o i).2

/-- The claims_percentage series: start_point - increment * i. -/
def claims_percentage (cfg : SweepCfg) : List ℚ :=
  (List.range (cfg.interval + 1)).map fun i => cfg.start_point - cfg.increment * i

/-- mack_df['mack_mse'].diff().abs() without its leading NaN: the delta
    at original index k+1 is |metric[k+1] - metric[k]|. -/
def mack_mse_diff (ms : List ℚ) : List ℚ :=
  (ms.zip ms.tail).map fun pr => |pr.2 - pr.1|

/-- Accumulator loop of idxmax: carries the best (index, value) so far,
    updating only on a strictly larger value (first occurrence wins). -/
def idxmax_go (bi : Nat) (bv : ℚ) (ci : Nat) : List ℚ → Nat × ℚ
  | [] => (bi, bv)
  | x :: xs => if bv < x then idxmax_go ci x (ci + 1) xs else idxmax_go bi bv (ci + 1) xs

/-- pandas Series.idxmax on a series indexed 0, 1, ...: position of the
    first occurrence of the maximum. -/
def idxmax : List ℚ → Nat
  | [] => 0
  | x :: xs => (idxmax_go 0 x 1 xs).1

/-- max_drop_index = mack_df['mack_mse_diff'][1:].idxmax(): index 0 holds
    the NaN diff, so the search runs over original indices 1..n-1. -/
def max_drop_index (ms : List ℚ) : Nat := 1 + idxmax (mack_mse_diff ms)

/-- The fraction the detector outputs: the entry of the fraction series at
    position max_drop_index. -/
def selected_fraction (fs ms : List ℚ) : ℚ := fs.getD (max_drop_index ms) 0

/-- threshold_percentage value recorded for a segment:
    mack_df.loc[max_drop_index, 'claims_percentage']. -/
def threshold_percentage (E : List PaidTxn → List OcrTxn → ℚ) (cfg : SweepCfg)
    (df : List ClaimRow) (p : List PaidTxn) (o : List OcrTxn) : ℚ :=
  selected_fraction (claims_percentage cfg) (mack_mse_series E cfg df p o)

/-- large_claims as the notebook computes it after the loop:
    segment_df.sort_values(...).iloc[:one_percent_index] with
    one_percent_index holding its value from the final iteration. -/
def large_claims (cfg : SweepCfg) (df : List ClaimRow) : List ClaimRow :=
  (sort_values df).take (one_percent_index cfg df.length cfg.interval)

/-- Quarter of a month index (OQDQ grain). -/
def qtr (m : Nat) : Nat := m / 3

/-- One cell of the incremental paid triangle: the sum of gross_paid over
    transactions whose loss date falls in origin quarter oq and whose
    transaction date falls in development quarter dq.  Rows with a
    missing loss date land in no cell. -/
def paid_cell (p : List PaidTxn) (oq dq : Nat) : ℚ :=
  ((p.filter fun t =>
    decide (t.loss_date.map qtr = some oq ∧ qtr t.transaction_date = dq)).map
      PaidTxn.gross_paid).sum

/-- The paid triangle after incr_to_cum(): cumulative along development. -/
def paid_triangle (p : List PaidTxn) (oq dq : Nat) : ℚ :=
  ∑ d ∈ Finset.range (dq + 1), paid_cell p oq d

/-- One cell of the reserve triangle (built with cumulative=True, so the
    cell values are used as they stand). -/
def ocr_cell (o : List OcrTxn) (oq dq : Nat) : ℚ :=
  ((o.filter fun t =>
    decide (t.loss_date.map qtr = some oq ∧ qtr t.transaction_date = dq)).map
      OcrTxn.gross_ocr).sum

/-- combined_triangle = paid_triangle + ocr_triangle, cell-wise. -/
def combined_triangle (p : List PaidTxn) (o : List OcrTxn) : Nat → Nat → ℚ :=
  fun oq dq => paid_triangle p oq dq + ocr_cell o oq dq

/-- Sum of a matrix over the grid of O origin quarters and D development
    quarters. -/
def sum_cells (O D : Nat) (T : Nat → Nat → ℚ) : ℚ :=
  ∑ oq ∈ Finset.range O, ∑ dq ∈ Finset.range D, T oq dq

/-- The boundary adapter: build the combined triangle, hand it to the
    external development/Mack estimator se, and sum the returned
    standard-error matrix over the grid. -/
def aggregate_metric (se : (Nat → Nat → ℚ) → Nat → Nat → ℚ) (O D : Nat)
    (p : List PaidTxn) (o : List OcrTxn) : ℚ :=
  sum_cells O D (se (combined_triangle p o))

/-- The adapter packaged as a sweep metric engine. -/
def adapter_engine (se : (Nat → Nat → ℚ) → Nat → Nat → ℚ) (O D : Nat) :
    List PaidTxn → List OcrTxn → ℚ :=
  fun p o => aggregate_metric se O D p o

/-- First-occurrence deduplication (pandas Series.unique), with the list
    of already seen values as accumulator. -/
def uniqueFirstAux {α : Type} [DecidableEq α] : List α → List α → List α
  | [], _ => []
  | x :: xs, seen => if x ∈ seen then uniqueFirstAux xs seen else x :: uniqueFirstAux xs (x :: seen)

def uniqueFirst {α : Type} [DecidableEq α] (l : List α) : List α := uniqueFirstAux l []

/-- segment_list = ocr_claims["segment"].unique(). -/
def segment_list (ocr : List OcrTxn) : List String :=
  uniqueFirst ((ocr_claims ocr).map ClaimRow.segment)

/-- One body of the outer segment loop: the sweep and detector run on the
    segment's slice of combined_df, paid_data and ocr_data. -/
def run_segment (E : List PaidTxn → List OcrTxn → ℚ) (cfg : SweepCfg)
    (paid : List PaidTxn) (ocr : List OcrTxn) (s : String) : ℚ :=
  threshold_percentage E cfg
    ((combined_df paid ocr).filter fun r => decide (r.segment = s))
    (paid.filter fun t => decide (t.segment = s))
    (ocr.filter fun t => decide (t.segment = s))

/-- The threshold_percentage dict accumulated over
    for segment in segment_list[:4]. -/
def threshold_map (E : List PaidTxn → List OcrTxn → ℚ) (cfg : SweepCfg)
    (paid : List PaidTxn) (ocr : List OcrTxn) : List (String × ℚ) :=
  ((segment_list ocr).take 4).foldl
    (fun acc s => acc ++ [("Rwanda " ++ s, run_segment E cfg paid ocr s)]) []

/-- A fallible per-step metric engine: the triangle build plus Mack fit,
    which can fail on degenerate inputs. -/
def step_metric (E : List PaidTxn → List OcrTxn → Except Unit ℚ) (cfg : SweepCfg)
    (df : List ClaimRow) (p : List PaidTxn) (o : List OcrTxn) (i : Nat) : Except Unit ℚ :=
  E (sweep_sets cfg df p o i).1 (sweep_sets cfg df p o i).2

/-- Run f over the steps in order, stopping at the first error — the
    uncaught-exception semantics of the notebook loop, which has no
    try/except around the triangle build or Mack fit. -/
def map_except (f : Nat → Except Unit ℚ) : List Nat → Except Unit (List ℚ)
  | [] => Except.ok []
  | i :: is =>
    match f i with
    | Except.error e => Except.error e
    | Except.ok q =>
      match map_except f is with
      | Except.error e => Except.error e
      | Except.ok qs => Except.ok (q :: qs)

/-- The sweep over a fallible engine: either every step yields a metric,
    or the first failing step aborts the whole segment sweep. -/
def code_sweep (E : List PaidTxn → List OcrTxn → Except Unit ℚ) (cfg : SweepCfg)
    (df : List ClaimRow) (p : List PaidTxn) (o : List OcrTxn) : Except Unit (List ℚ) :=
  map_except (step_metric E cfg df p o) (List.range (cfg.interval + 1))

/-- Modelled from the spec: section 4.4's dollar cutoff, which the
    notebook never computes — the gross incurred amount of the claim at
    sorted position cutoff_index(fraction[k]) - 1 of the full descending
    sort of the segment's claims. -/
def spec_dollar_cutoff (cfg : SweepCfg) (df : List ClaimRow) (k : Nat) : ℚ :=
  ((sort_values df).getD (one_percent_index cfg df.length k - 1)
    ⟨"", "", none, 0, 0⟩).gross_amount

/- Concrete data for the cumulative-merge semantics claims: claim "a" has
   two aggregated rows (two loss dates), and the 3/10 sweep merges at
   steps 1 and 2. -/
def exCfg : SweepCfg := ⟨1, 3/10, 2⟩

def exRows : List ClaimRow :=
  [⟨"b", "s", some 0, 10, 0⟩, ⟨"c", "s", some 0, 9, 0⟩,
   ⟨"a", "s", some 0, 2, 0⟩, ⟨"a", "s", some 3, 1, 0⟩]

def exPaid : List PaidTxn :=
  [⟨"a", "s", some 0, 1, 5, 0⟩, ⟨"b", "s", some 0, 1, 6, 0⟩, ⟨"c", "s", some 0, 1, 7, 0⟩]

def exOcr : List OcrTxn := [⟨"a", "s", some 0, 1, 5, 0⟩]

/- Error-propagation lemmas for the sweep loop -/
def ok_value : Except Unit ℚ → ℚ
  | Except.ok q => q
  | Except.error _ => 0

/-- Concrete sweep input for the failure-recovery claims: three claims,
    increments of one third, and an engine that fails exactly on the
    two-transaction table produced at step 1. -/
def cfg3 : SweepCfg := ⟨1, 1/3, 2⟩

def df3 : List ClaimRow :=
  [⟨"a", "s", some 0, 30, 0⟩, ⟨"b", "s", some 0, 20, 0⟩, ⟨"c", "s", some 0, 10, 0⟩]

def p3 : List PaidTxn :=
  [⟨"a", "s", some 0, 1, 5, 0⟩, ⟨"b", "s", some 0, 1, 6, 0⟩, ⟨"c", "s", some 0, 1, 7, 0⟩]

def o3 : List OcrTxn := [⟨"c", "s", some 0, 1, 2, 0⟩]

def failing_engine : List PaidTxn → List OcrTxn → Except Unit ℚ :=
  fun p _ => if p.length = 2 then Except.error () else Except.ok (p.length : ℚ)

def ok_engine : List PaidTxn → List OcrTxn → Except Unit ℚ :=
  fun p _ => Except.ok (p.length : ℚ)

/- Determinism lemmas: the aggregation pipeline is a function of the
   input multisets, and the stable sort refines ties by the groupby key
   order (claim_id first). -/
def lexDesc (a b : ClaimRow) : Prop :=
  b.gross_amount < a.gross_amount ∨
    (b.gross_amount = a.gross_amount ∧ a.claim_id ≤ b.claim_id)

/-- The five-segment reserve table used to exercise the orchestrator. -/
def ocrZ : List OcrTxn :=
  [⟨"a", "A", some 0, 1, 1, 0⟩, ⟨"b", "B", some 0, 1, 1, 0⟩, ⟨"c", "C", some 0, 1, 1, 0⟩,
   ⟨"d", "D", some 0, 1, 1, 0⟩, ⟨"e", "E", some 0, 1, 1, 0⟩]

def zero_engine : List PaidTxn → List OcrTxn → ℚ := fun _ _ => 0

def cfgZ : SweepCfg := ⟨1, 1/100, 1⟩

/- Concrete ten-claim segment for the dollar-cutoff claims: the metric
   drops sharply when the first claim is excluded (step 1), while the
   loop runs on to step 3. -/
def cfg4 : SweepCfg := ⟨1, 1/10, 3⟩

def df4 : List ClaimRow :=
  [⟨"a", "s", some 0, 100, 0⟩, ⟨"b", "s", some 0, 90, 0⟩, ⟨"c", "s", some 0, 80, 0⟩,
   ⟨"d", "s", some 0, 70, 0⟩, ⟨"e", "s", some 0, 60, 0⟩, ⟨"f", "s", some 0, 50, 0⟩,
   ⟨"g", "s", some 0, 40, 0⟩, ⟨"h", "s", some 0, 30, 0⟩, ⟨"i", "s", some 0, 20, 0⟩,
   ⟨"j", "s", some 0, 10, 0⟩]

def p4 : List PaidTxn :=
  [⟨"a", "s", some 0, 1, 1, 0⟩, ⟨"b", "s", some 0, 1, 1, 0⟩, ⟨"c", "s", some 0, 1, 1, 0⟩,
   ⟨"d", "s", some 0, 1, 1, 0⟩, ⟨"e", "s", some 0, 1, 1, 0⟩, ⟨"f", "s", some 0, 1, 1, 0⟩,
   ⟨"g", "s", some 0, 1, 1, 0⟩, ⟨"h", "s", some 0, 1, 1, 0⟩, ⟨"i", "s", some 0, 1, 1, 0⟩,
   ⟨"j", "s", some 0, 1, 1, 0⟩]

def metric_of_len : Nat → ℚ
  | 10 => 10
  | 9 => 2
  | 8 => 19/10
  | _ => 9/5

def len_engine : List PaidTxn → List OcrTxn → ℚ := fun p _ => metric_of_len p.length

/- Drop Detector lemmas -/
theorem idxmax_go_spec (l : List ℚ) : ∀ (bi : Nat) (bv : ℚ) (ci : Nat), bi < ci →
    ((idxmax_go bi bv ci l).1 = bi ∧ (idxmax_go bi bv ci l).2 = bv ∨
      ∃ k, k < l.length ∧ (idxmax_go bi bv ci l).1 = ci + k ∧
        (idxmax_go bi bv ci l).2 = l.getD k 0 ∧ bv < (idxmax_go bi bv ci l).2) ∧
    bv ≤ (idxmax_go bi bv ci l).2 ∧
    (∀ k, k < l.length → l.getD k 0 ≤ (idxmax_go bi bv ci l).2) ∧
    (∀ k, k < l.length → ci + k < (idxmax_go bi bv ci l).1 → l.getD k 0 < (idxmax_go bi bv ci l).2) := by
  induction l with
  | nil =>
    intro bi bv ci _
    refine ⟨Or.inl ⟨rfl, rfl⟩, le_refl _, ?_, ?_⟩ <;> intro k hk <;> exact absurd hk (Nat.not_lt_zero k)
  | cons x xs ih =>
    intro bi bv ci hbc
    by_cases h : bv < x
    · have spec := ih ci x (ci + 1) (Nat.lt_succ_self ci)
      simp only [idxmax_go, if_pos h]
      obtain ⟨hdis, hmono, hmax, hstrict⟩ := spec
      refine ⟨?_, le_trans (le_of_lt h) hmono, ?_, ?_⟩
      · rcases hdis with ⟨h1, h2⟩ | ⟨k, hk, h1, h2, h3⟩
        · exact Or.inr ⟨0, Nat.succ_pos _, by omega, by rw [h2, List.getD_cons_zero], by rw [h2]; exact h⟩
        · exact Or.inr ⟨k + 1, by simpa using hk, by omega, by rw [h2, List.getD_cons_succ],
            lt_trans h h3⟩
      · intro k hk
        match k with
        | 0 => rw [List.getD_cons_zero]; exact hmono
        | k + 1 => rw [List.getD_cons_succ]; exact hmax k (by simpa using hk)
      · intro k hk hlt
        match k with
        | 0 =>
          rw [List.getD_cons_zero]
          rcases hdis with ⟨h1, _⟩ | ⟨_, _, _, _, h3⟩
          · omega
          · exact h3
        | k + 1 =>
          rw [List.getD_cons_succ]
          exact hstrict k (by simpa using hk) (by omega)
    · have spec := ih bi bv (ci + 1) (by omega)
      simp only [idxmax_go, if_neg h]
      obtain ⟨hdis, hmono, hmax, hstrict⟩ := spec
      refine ⟨?_, hmono, ?_, ?_⟩
      · rcases hdis with ⟨h1, h2⟩ | ⟨k, hk, h1, h2, h3⟩
        · exact Or.inl ⟨h1, h2⟩
        · exact Or.inr ⟨k + 1, by simpa using hk, by omega, by rw [h2, List.getD_cons_succ], h3⟩
      · intro k hk
        match k with
        | 0 => rw [List.getD_cons_zero]; exact le_trans (not_lt.mp h) hmono
        | k + 1 => rw [List.getD_cons_succ]; exact hmax k (by simpa using hk)
      · intro k hk hlt
        match k with
        | 0 =>
          rw [List.getD_cons_zero]
          rcases hdis with ⟨h1, _⟩ | ⟨_, _, _, _, h3⟩
          · omega
          · exact lt_of_le_of_lt (not_lt.mp h) h3
        | k + 1 =>
          rw [List.getD_cons_succ]
          exact hstrict k (by simpa using hk) (by omega)

theorem idxmax_lt_length (l : List ℚ) (h : l ≠ []) : idxmax l < l.length := by
  match l with
  | x :: xs =>
    have spec := idxmax_go_spec xs 0 x 1 Nat.one_pos
    rcases spec.1 with ⟨h1, _⟩ | ⟨k, hk, h1, _, _⟩
    · simp [idxmax, h1]
    · simp only [idxmax, h1, List.length_cons]
      omega

theorem getD_idxmax (l : List ℚ) (h : l ≠ []) :
    l.getD (idxmax l) 0 = (match l with | [] => 0 | x :: xs => (idxmax_go 0 x 1 xs).2) := by
  match l with
  | x :: xs =>
    have spec := idxmax_go_spec xs 0 x 1 Nat.one_pos
    rcases spec.1 with ⟨h1, h2⟩ | ⟨k, hk, h1, h2, _⟩
    · simp [idxmax, h1, h2]
    · simp only [idxmax, h1]
      rw [Nat.add_comm 1 k, List.getD_cons_succ, h2]

theorem getD_le_getD_idxmax (l : List ℚ) (j : Nat) (hj : j < l.length) :
    l.getD j 0 ≤ l.getD (idxmax l) 0 := by
  match l with
  | x :: xs =>
    rw [getD_idxmax _ (List.cons_ne_nil x xs)]
    have spec := idxmax_go_spec xs 0 x 1 Nat.one_pos
    match j with
    | 0 => rw [List.getD_cons_zero]; exact spec.2.1
    | j + 1 => rw [List.getD_cons_succ]; exact spec.2.2.1 j (by simpa using hj)

theorem getD_lt_getD_idxmax (l : List ℚ) (j : Nat) (hj : j < idxmax l) :
    l.getD j 0 < l.getD (idxmax l) 0 := by
  match l with
  | [] => simp [idxmax] at hj
  | x :: xs =>
    rw [getD_idxmax _ (List.cons_ne_nil x xs)]
    have spec := idxmax_go_spec xs 0 x 1 Nat.one_pos
    have hlen : idxmax (x :: xs) < xs.length + 1 := by
      simpa using idxmax_lt_length (x :: xs) (List.cons_ne_nil x xs)
    match j with
    | 0 =>
      rw [List.getD_cons_zero]
      rcases spec.1 with ⟨h1, _⟩ | ⟨_, _, _, _, h3⟩
      · simp [idxmax, h1] at hj
      · exact h3
    | j + 1 =>
      rw [List.getD_cons_succ]
      exact spec.2.2.2 j (by simp only [idxmax] at hj hlen; omega)
        (by simp only [idxmax] at hj; omega)

theorem mack_mse_diff_length (ms : List ℚ) : (mack_mse_diff ms).length = ms.length - 1 := by
  rw [mack_mse_diff, List.length_map, List.length_zip, List.length_tail]
  omega

theorem mack_mse_diff_getD (ms : List ℚ) (k : Nat) (hk : k + 1 < ms.length) :
    (mack_mse_diff ms).getD k 0 = |ms.getD (k + 1) 0 - ms.getD k 0| := by
  have hz : k < (ms.zip ms.tail).length := by
    rw [List.length_zip, List.length_tail]; omega
  rw [mack_mse_diff, List.getD_eq_getElem _ _ (by rw [List.length_map]; exact hz),
    List.getElem_map, List.getElem_zip, List.getD_eq_getElem _ _ hk,
    List.getD_eq_getElem _ _ (by omega : k < ms.length)]
  congr 1
  rw [List.getElem_tail]

/-- C1: for every ordered sweep-metric series of length n >= 2, the Drop
    Detector searches the deltas |metric[k] - metric[k-1]| for k = 1..n-1,
    never selects index 0 (the 0 percent baseline), selects the argmax
    with ties broken by the first occurrence, and outputs the fraction at
    the selected index; on the series [10, 9.5, 9.3, 5, 4.9] at fractions
    [0.00, 0.01, 0.02, 0.03, 0.04] it selects 0.03. -/
theorem C1_drop_detector (fs ms : List ℚ) (hlen : fs.length = ms.length)
    (h2 : 2 ≤ ms.length) :
    (1 ≤ max_drop_index ms ∧ max_drop_index ms < ms.length) ∧
    (∀ j, 1 ≤ j → j < ms.length →
      |ms.getD j 0 - ms.getD (j - 1) 0| ≤
        |ms.getD (max_drop_index ms) 0 - ms.getD (max_drop_index ms - 1) 0|) ∧
    (∀ j, 1 ≤ j → j < max_drop_index ms →
      |ms.getD j 0 - ms.getD (j - 1) 0| <
        |ms.getD (max_drop_index ms) 0 - ms.getD (max_drop_index ms - 1) 0|) ∧
    selected_fraction fs ms = fs.getD (max_drop_index ms) 0 ∧
    selected_fraction [0, 1/100, 2/100, 3/100, 4/100] [10, 19/2, 93/10, 5, 49/10] = 3/100 := by
  have hne : mack_mse_diff ms ≠ [] := by
    intro hnil
    have := mack_mse_diff_length ms
    rw [hnil] at this
    simp at this
    omega
  have hidx : idxmax (mack_mse_diff ms) < ms.length - 1 := by
    have := idxmax_lt_length (mack_mse_diff ms) hne
    rwa [mack_mse_diff_length ms] at this
  have hmdi : max_drop_index ms = 1 + idxmax (mack_mse_diff ms) := rfl
  have hdelta : ∀ j, 1 ≤ j → j < ms.length →
      (mack_mse_diff ms).getD (j - 1) 0 = |ms.getD j 0 - ms.getD (j - 1) 0| := by
    intro j hj1 hj2
    have := mack_mse_diff_getD ms (j - 1) (by omega)
    rwa [Nat.sub_add_cancel hj1] at this
  refine ⟨⟨by omega, by omega⟩, ?_, ?_, rfl, by
    norm_num [selected_fraction, max_drop_index, mack_mse_diff, idxmax, idxmax_go, abs]⟩
  · intro j hj1 hj2
    rw [← hdelta j hj1 hj2, ← hdelta (max_drop_index ms) (by omega) (by omega)]
    have : max_drop_index ms - 1 = idxmax (mack_mse_diff ms) := by omega
    rw [this]
    exact getD_le_getD_idxmax _ _ (by rw [mack_mse_diff_length ms]; omega)
  · intro j hj1 hjlt
    rw [← hdelta j hj1 (by omega), ← hdelta (max_drop_index ms) (by omega) (by omega)]
    have : max_drop_index ms - 1 = idxmax (mack_mse_diff ms) := by omega
    rw [this]
    exact getD_lt_getD_idxmax _ _ (by omega)

/-- C1 witness: the theorem applied to the concrete five-point series of
    the spec's synthetic example. -/
theorem C1_drop_detector_witness :
    selected_fraction [0, 1/100, 2/100, 3/100, 4/100] [10, 19/2, 93/10, 5, 49/10] = 3/100 ∧
    (1 ≤ max_drop_index [10, 19/2, 93/10, 5, 49/10] ∧
      max_drop_index [10, 19/2, 93/10, 5, 49/10] < 5) :=
  ⟨(C1_drop_detector [0, 1/100, 2/100, 3/100, 4/100] [10, 19/2, 93/10, 5, 49/10]
      (by decide) (by decide)).2.2.2.2,
   (C1_drop_detector [0, 1/100, 2/100, 3/100, 4/100] [10, 19/2, 93/10, 5, 49/10]
      (by decide) (by decide)).1⟩

/- Percentage sweep cutoff lemmas -/
theorem one_percent_index_zero (cfg : SweepCfg) (n : Nat) : one_percent_index cfg n 0 = 0 := by
  simp [one_percent_index]

theorem one_percent_index_mono (cfg : SweepCfg) (n : Nat) (hinc : 0 ≤ cfg.increment)
    {i j : Nat} (hij : i ≤ j) : one_percent_index cfg n i ≤ one_percent_index cfg n j := by
  unfold one_percent_index
  refine Int.toNat_le_toNat (Int.floor_le_floor ?_)
  refine mul_le_mul_of_nonneg_left ?_ (Nat.cast_nonneg n)
  exact mul_le_mul_of_nonneg_left (Nat.cast_le.mpr hij) hinc

theorem one_percent_index_le (cfg : SweepCfg) (n : Nat) (i : Nat)
    (hfr : cfg.increment * i ≤ 1) : one_percent_index cfg n i ≤ n := by
  unfold one_percent_index
  rw [Int.toNat_le]
  calc Int.floor ((n : ℚ) * (cfg.increment * i)) ≤ Int.floor ((n : ℚ)) :=
        Int.floor_le_floor (mul_le_of_le_one_right (Nat.cast_nonneg n) hfr)
    _ = (n : Int) := Int.floor_natCast n
    _ ≤ (n : Int) := le_refl _

theorem sort_values_length (df : List ClaimRow) : (sort_values df).length = df.length :=
  (List.perm_insertionSort claimGE df).length_eq

/-- C3: at every sweep step the cutoff index is floor(claim_count * f);
    the excluded claims are exactly the sorted positions below the cutoff;
    the retained count is total - floor(total * f); and the retained count
    is non-increasing as the exclusion fraction grows. -/
theorem C3_cutoff_retained (cfg : SweepCfg) (df : List ClaimRow) (i j : Nat)
    (hinc : 0 ≤ cfg.increment) (hij : i ≤ j) (hj : cfg.increment * (j : ℚ) ≤ 1) :
    one_percent_index cfg df.length i =
      (Int.floor ((df.length : ℚ) * (cfg.increment * (i : ℚ)))).toNat ∧
    (sort_values df).take (one_percent_index cfg df.length i) ++ attritional_claims cfg df i
      = sort_values df ∧
    one_percent_index cfg df.length i ≤ df.length ∧
    (attritional_claims cfg df i).length = df.length - one_percent_index cfg df.length i ∧
    (attritional_claims cfg df j).length ≤ (attritional_claims cfg df i).length := by
  have hle : one_percent_index cfg df.length j ≤ df.length :=
    one_percent_index_le cfg df.length j hj
  have hmono : one_percent_index cfg df.length i ≤ one_percent_index cfg df.length j :=
    one_percent_index_mono cfg df.length hinc hij
  refine ⟨rfl, List.take_append_drop _ _, le_trans hmono hle, ?_, ?_⟩
  · rw [attritional_claims, List.length_drop, sort_values_length]
  · rw [attritional_claims, attritional_claims, List.length_drop, List.length_drop]
    exact Nat.sub_le_sub_left hmono _

/-- C3 witness: the theorem applied at a concrete three-claim segment with
    the notebook's configuration (increment 0.01, 30 steps), steps 2 and 5. -/
theorem C3_cutoff_retained_witness :
    (attritional_claims ⟨1, 1/100, 30⟩
        [⟨"a", "s", some 0, 5, 0⟩, ⟨"b", "s", some 0, 3, 0⟩, ⟨"c", "s", some 0, 1, 0⟩] 2).length =
      3 - one_percent_index ⟨1, 1/100, 30⟩ 3 2 :=
  (C3_cutoff_retained ⟨1, 1/100, 30⟩
      [⟨"a", "s", some 0, 5, 0⟩, ⟨"b", "s", some 0, 3, 0⟩, ⟨"c", "s", some 0, 1, 0⟩] 2 5
      (by norm_num) (by omega) (by norm_num)).2.2.2.1

/- Boundary adapter lemmas -/
theorem paid_cell_cons (t : PaidTxn) (ts : List PaidTxn) (oq d : Nat) :
    paid_cell (t :: ts) oq d =
      (if t.loss_date.map qtr = some oq ∧ qtr t.transaction_date = d then t.gross_paid else 0)
        + paid_cell ts oq d := by
  unfold paid_cell
  rw [List.filter_cons]
  by_cases hc : t.loss_date.map qtr = some oq ∧ qtr t.transaction_date = d
  · simp only [decide_eq_true_eq]
    rw [if_pos hc, List.map_cons, List.sum_cons]
    rw [if_pos hc]
  · simp only [decide_eq_true_eq]
    rw [if_neg hc]
    rw [if_neg hc, zero_add]

theorem paid_triangle_cum (p : List PaidTxn) (oq dq : Nat) :
    paid_triangle p oq dq =
      ((p.filter fun t =>
        decide (t.loss_date.map qtr = some oq ∧ qtr t.transaction_date ≤ dq)).map
          PaidTxn.gross_paid).sum := by
  induction p with
  | nil => simp [paid_triangle, paid_cell]
  | cons t ts ih =>
    rw [paid_triangle] at ih ⊢
    rw [Finset.sum_congr rfl fun d _ => paid_cell_cons t ts oq d, Finset.sum_add_distrib, ih]
    have hsum : (∑ d ∈ Finset.range (dq + 1),
        if t.loss_date.map qtr = some oq ∧ qtr t.transaction_date = d then t.gross_paid else 0)
        = if t.loss_date.map qtr = some oq ∧ qtr t.transaction_date ≤ dq
            then t.gross_paid else 0 := by
      by_cases ho : t.loss_date.map qtr = some oq
      · by_cases hd : qtr t.transaction_date ≤ dq
        · rw [if_pos ⟨ho, hd⟩, Finset.sum_eq_single (qtr t.transaction_date)]
          · rw [if_pos ⟨ho, rfl⟩]
          · intro d _ hne
            rw [if_neg]
            rintro ⟨_, he⟩
            exact hne he.symm
          · intro hmem
            exact absurd (Finset.mem_range.mpr (by omega)) hmem
        · rw [if_neg fun hx => hd hx.2]
          refine Finset.sum_eq_zero fun d hd2 => ?_
          rw [if_neg]
          rintro ⟨_, he⟩
          exact hd (he ▸ Nat.lt_succ_iff.mp (Finset.mem_range.mp hd2))
      · rw [if_neg fun hx => ho hx.1]
        refine Finset.sum_eq_zero fun d _ => ?_
        rw [if_neg fun hx => ho hx.1]
    rw [hsum, List.filter_cons]
    by_cases hc : t.loss_date.map qtr = some oq ∧ qtr t.transaction_date ≤ dq
    · simp only [decide_eq_true_eq]
      rw [if_pos hc]
      rw [if_pos hc, List.map_cons, List.sum_cons]
    · simp only [decide_eq_true_eq]
      rw [if_neg hc]
      rw [if_neg hc, zero_add]

/-- C2: the boundary adapter builds the paid triangle as incremental and
    converts it to cumulative, builds the reserve triangle as already
    cumulative, adds the two cell-wise at the quarterly grain, hands the
    combined triangle to the external development/Mack estimator, and
    returns the sum of the standard-error matrix over all grid cells:
    the cell at (oq, dq) fed to the estimator is the cumulative paid
    amount of origin quarter oq up to development quarter dq plus the
    reserve cell at (oq, dq). -/
theorem C2_boundary_adapter (se : (Nat → Nat → ℚ) → Nat → Nat → ℚ) (O D : Nat)
    (p : List PaidTxn) (o : List OcrTxn) :
    aggregate_metric se O D p o =
      sum_cells O D (se fun oq dq =>
        ((p.filter fun t =>
          decide (t.loss_date.map qtr = some oq ∧ qtr t.transaction_date ≤ dq)).map
            PaidTxn.gross_paid).sum + ocr_cell o oq dq) := by
  have htri : combined_triangle p o = fun oq dq =>
      ((p.filter fun t =>
        decide (t.loss_date.map qtr = some oq ∧ qtr t.transaction_date ≤ dq)).map
          PaidTxn.gross_paid).sum + ocr_cell o oq dq := by
    funext oq dq
    rw [combined_triangle, paid_triangle_cum]
  rw [aggregate_metric, htri]

/- Sweep filtering lemmas -/
theorem mem_mergeTx {α : Type} (cid : α → String) (txns : List α) (rows : List ClaimRow)
    (t : α) :
    t ∈ mergeTx cid txns rows ↔ t ∈ txns ∧ cid t ∈ rows.map ClaimRow.claim_id := by
  unfold mergeTx
  constructor
  · intro h
    obtain ⟨u, hu, hmem⟩ := List.mem_flatMap.mp h
    obtain ⟨r, hr, he⟩ := List.mem_map.mp hmem
    cases he
    have hr2 := List.mem_filter.mp hr
    refine ⟨hu, List.mem_map.mpr ⟨r, hr2.1, of_decide_eq_true hr2.2⟩⟩
  · rintro ⟨ht, hc⟩
    obtain ⟨r, hr, hcid⟩ := List.mem_map.mp hc
    exact List.mem_flatMap.mpr ⟨t, ht,
      List.mem_map.mpr ⟨r, List.mem_filter.mpr ⟨hr, decide_eq_true hcid⟩, rfl⟩⟩

theorem sweep_sets_step (cfg : SweepCfg) (df : List ClaimRow) (p : List PaidTxn)
    (o : List OcrTxn) (i : Nat) :
    sweep_sets cfg df p o (i + 1) = step_filter cfg df (i + 1) (sweep_sets cfg df p o i) := rfl

theorem sweep_sets_zero (cfg : SweepCfg) (df : List ClaimRow) (p : List PaidTxn)
    (o : List OcrTxn) : sweep_sets cfg df p o 0 = (p, o) := by
  show step_filter cfg df 0 (p, o) = (p, o)
  rw [step_filter, one_percent_index_zero]
  simp

/-- Membership in the running filtered tables: a transaction survives up
    to step i exactly when its claim_id is among the attritional claim_ids
    of every step j <= i whose cutoff was positive. -/
theorem mem_sweep_sets (cfg : SweepCfg) (df : List ClaimRow) (p : List PaidTxn)
    (o : List OcrTxn) : ∀ i,
    (∀ t : PaidTxn, t ∈ (sweep_sets cfg df p o i).1 ↔ t ∈ p ∧
      ∀ j, j ≤ i → 0 < one_percent_index cfg df.length j →
        t.claim_id ∈ (attritional_claims cfg df j).map ClaimRow.claim_id) ∧
    (∀ u : OcrTxn, u ∈ (sweep_sets cfg df p o i).2 ↔ u ∈ o ∧
      ∀ j, j ≤ i → 0 < one_percent_index cfg df.length j →
        u.claim_id ∈ (attritional_claims cfg df j).map ClaimRow.claim_id) := by
  intro i
  induction i with
  | zero =>
    rw [sweep_sets_zero]
    constructor <;> intro t <;>
      simp only [true_and, iff_self_and] <;> intro _ <;> intro j hj hpos <;>
      · interval_cases j
        rw [one_percent_index_zero] at hpos
        omega
  | succ i ih =>
    rw [sweep_sets_step, step_filter]
    by_cases hpos : 0 < one_percent_index cfg df.length (i + 1)
    · rw [if_pos hpos]
      constructor <;> intro t
      · rw [mem_mergeTx, ih.1 t]
        constructor
        · rintro ⟨⟨ht, hall⟩, hmem⟩
          refine ⟨ht, fun j hj hp => ?_⟩
          rcases Nat.lt_succ_iff_lt_or_eq.mp (Nat.lt_succ_of_le hj) with h | h
          · exact hall j (by omega) hp
          · exact h ▸ hmem
        · rintro ⟨ht, hall⟩
          exact ⟨⟨ht, fun j hj hp => hall j (by omega) hp⟩, hall (i + 1) (le_refl _) hpos⟩
      · rw [mem_mergeTx, ih.2 t]
        constructor
        · rintro ⟨⟨ht, hall⟩, hmem⟩
          refine ⟨ht, fun j hj hp => ?_⟩
          rcases Nat.lt_succ_iff_lt_or_eq.mp (Nat.lt_succ_of_le hj) with h | h
          · exact hall j (by omega) hp
          · exact h ▸ hmem
        · rintro ⟨ht, hall⟩
          exact ⟨⟨ht, fun j hj hp => hall j (by omega) hp⟩, hall (i + 1) (le_refl _) hpos⟩
    · rw [if_neg hpos]
      constructor <;> intro t
      · rw [ih.1 t]
        constructor
        · rintro ⟨ht, hall⟩
          refine ⟨ht, fun j hj hp => ?_⟩
          by_cases hji : j ≤ i
          · exact hall j hji hp
          · have hje : j = i + 1 := by omega
            exact absurd hp (hje ▸ hpos)
        · rintro ⟨ht, hall⟩
          exact ⟨ht, fun j hj hp => hall j (le_trans hj (Nat.le_succ i)) hp⟩
      · rw [ih.2 t]
        constructor
        · rintro ⟨ht, hall⟩
          refine ⟨ht, fun j hj hp => ?_⟩
          by_cases hji : j ≤ i
          · exact hall j hji hp
          · have hje : j = i + 1 := by omega
            exact absurd hp (hje ▸ hpos)
        · rintro ⟨ht, hall⟩
          exact ⟨ht, fun j hj hp => hall j (le_trans hj (Nat.le_succ i)) hp⟩

/-- C5: retained-in-both consistency: at every sweep step, a claim that
    has paid transactions and reserve transactions in the segment's input
    tables is either present in both filtered tables or absent from both;
    the merges at each step filter both tables by the same retained
    claim_id set, so filtering never keeps a claim's paid transactions
    while dropping its reserve transactions or vice versa. -/
theorem C5_retained_in_both (cfg : SweepCfg) (df : List ClaimRow) (p : List PaidTxn)
    (o : List OcrTxn) (i : Nat) (c : String)
    (hp : c ∈ p.map PaidTxn.claim_id) (ho : c ∈ o.map OcrTxn.claim_id) :
    c ∈ (sweep_sets cfg df p o i).1.map PaidTxn.claim_id ↔
      c ∈ (sweep_sets cfg df p o i).2.map OcrTxn.claim_id := by
  have hchar := mem_sweep_sets cfg df p o i
  constructor
  · intro h
    obtain ⟨t, ht, htc⟩ := List.mem_map.mp h
    obtain ⟨ht2, hcond⟩ := (hchar.1 t).mp ht
    obtain ⟨u, hu, huc⟩ := List.mem_map.mp ho
    refine List.mem_map.mpr ⟨u, (hchar.2 u).mpr ⟨hu, ?_⟩, huc⟩
    rw [huc, ← htc]
    exact hcond
  · intro h
    obtain ⟨u, hu, huc⟩ := List.mem_map.mp h
    obtain ⟨hu2, hcond⟩ := (hchar.2 u).mp hu
    obtain ⟨t, ht, htc⟩ := List.mem_map.mp hp
    refine List.mem_map.mpr ⟨t, (hchar.1 t).mpr ⟨ht, ?_⟩, htc⟩
    rw [htc, ← huc]
    exact hcond

/-- C5 witness: a two-claim segment at step 1 of a one-tenth sweep. -/
theorem C5_retained_in_both_witness :
    "a" ∈ ([⟨"a", "s", some 0, 1, 5, 0⟩, ⟨"b", "s", some 0, 1, 6, 0⟩] : List PaidTxn).map
        PaidTxn.claim_id ∧
    "a" ∈ ([⟨"a", "s", some 0, 1, 2, 0⟩] : List OcrTxn).map OcrTxn.claim_id ∧
    ("a" ∈ (sweep_sets ⟨1, 1/2, 1⟩ [⟨"a", "s", some 0, 5, 0⟩, ⟨"b", "s", some 0, 8, 0⟩]
          [⟨"a", "s", some 0, 1, 5, 0⟩, ⟨"b", "s", some 0, 1, 6, 0⟩]
          [⟨"a", "s", some 0, 1, 2, 0⟩] 1).1.map PaidTxn.claim_id ↔
      "a" ∈ (sweep_sets ⟨1, 1/2, 1⟩ [⟨"a", "s", some 0, 5, 0⟩, ⟨"b", "s", some 0, 8, 0⟩]
          [⟨"a", "s", some 0, 1, 5, 0⟩, ⟨"b", "s", some 0, 1, 6, 0⟩]
          [⟨"a", "s", some 0, 1, 2, 0⟩] 1).2.map OcrTxn.claim_id) :=
  ⟨by simp, by simp,
    C5_retained_in_both ⟨1, 1/2, 1⟩ [⟨"a", "s", some 0, 5, 0⟩, ⟨"b", "s", some 0, 8, 0⟩]
      [⟨"a", "s", some 0, 1, 5, 0⟩, ⟨"b", "s", some 0, 1, 6, 0⟩]
      [⟨"a", "s", some 0, 1, 2, 0⟩] 1 "a" (by simp) (by simp)⟩

theorem count_mergeTx {α : Type} [DecidableEq α] (cid : α → String) (txns : List α)
    (rows : List ClaimRow) (t : α) :
    (mergeTx cid txns rows).count t =
      txns.count t * ((rows.filter fun r => decide (r.claim_id = cid t)).length) := by
  induction txns with
  | nil => simp [mergeTx]
  | cons u us ih =>
    unfold mergeTx at ih ⊢
    rw [List.flatMap_cons, List.count_append, ih, List.map_const', List.count_replicate]
    by_cases h : u = t
    · subst h
      simp only [beq_self_eq_true, if_true]
      rw [List.count_cons_self, Nat.succ_mul, Nat.add_comm]
    · rw [if_neg (show ¬((u == t) = true) by simpa using h),
        List.count_cons_of_ne (fun he => h he.symm), Nat.zero_add]

theorem sweep_sets_fst (cfg : SweepCfg) (df : List ClaimRow) (p : List PaidTxn)
    (o : List OcrTxn) (i : Nat) :
    (sweep_sets cfg df p o (i + 1)).1 =
      if 0 < one_percent_index cfg df.length (i + 1)
        then mergeTx PaidTxn.claim_id (sweep_sets cfg df p o i).1
          (attritional_claims cfg df (i + 1))
        else (sweep_sets cfg df p o i).1 := by
  rw [sweep_sets_step]
  simp only [step_filter]
  split_ifs with h <;> rfl

theorem sweep_sets_snd (cfg : SweepCfg) (df : List ClaimRow) (p : List PaidTxn)
    (o : List OcrTxn) (i : Nat) :
    (sweep_sets cfg df p o (i + 1)).2 =
      if 0 < one_percent_index cfg df.length (i + 1)
        then mergeTx OcrTxn.claim_id (sweep_sets cfg df p o i).2
          (attritional_claims cfg df (i + 1))
        else (sweep_sets cfg df p o i).2 := by
  rw [sweep_sets_step]
  simp only [step_filter]
  split_ifs with h <;> rfl

/-- Multiplicity bookkeeping of the cumulative merges: after step i a
    transaction appears once per original occurrence times the product,
    over every merging step so far, of the number of retained aggregated
    rows sharing its claim_id at that step. -/
theorem count_sweep_sets (cfg : SweepCfg) (df : List ClaimRow) (p : List PaidTxn)
    (o : List OcrTxn) (t : PaidTxn) (u : OcrTxn) : ∀ i,
    (sweep_sets cfg df p o i).1.count t =
      p.count t * ∏ j ∈ Finset.range (i + 1),
        (if 0 < one_percent_index cfg df.length j
          then ((attritional_claims cfg df j).filter fun r =>
            decide (r.claim_id = t.claim_id)).length
          else 1) ∧
    (sweep_sets cfg df p o i).2.count u =
      o.count u * ∏ j ∈ Finset.range (i + 1),
        (if 0 < one_percent_index cfg df.length j
          then ((attritional_claims cfg df j).filter fun r =>
            decide (r.claim_id = u.claim_id)).length
          else 1) := by
  intro i
  induction i with
  | zero =>
    rw [sweep_sets_zero]
    have hz : ¬ 0 < one_percent_index cfg df.length 0 := by
      rw [one_percent_index_zero]; omega
    constructor <;> rw [Finset.range_one, Finset.prod_singleton, if_neg hz, Nat.mul_one]
  | succ i ih =>
    constructor
    · rw [sweep_sets_fst]
      by_cases hpos : 0 < one_percent_index cfg df.length (i + 1)
      · rw [if_pos hpos, count_mergeTx, ih.1]
        conv_rhs => rw [Finset.prod_range_succ]
        rw [if_pos hpos, Nat.mul_assoc]
      · rw [if_neg hpos, ih.1]
        conv_rhs => rw [Finset.prod_range_succ]
        rw [if_neg hpos, Nat.mul_one]
    · rw [sweep_sets_snd]
      by_cases hpos : 0 < one_percent_index cfg df.length (i + 1)
      · rw [if_pos hpos, count_mergeTx, ih.2]
        conv_rhs => rw [Finset.prod_range_succ]
        rw [if_pos hpos, Nat.mul_assoc]
      · rw [if_neg hpos, ih.2]
        conv_rhs => rw [Finset.prod_range_succ]
        rw [if_neg hpos, Nat.mul_one]

theorem length_filter_ids (rows : List ClaimRow) (c : String)
    (hnd : (rows.map ClaimRow.claim_id).Nodup) :
    (rows.filter fun r => decide (r.claim_id = c)).length =
      if c ∈ rows.map ClaimRow.claim_id then 1 else 0 := by
  induction rows with
  | nil => simp
  | cons r rs ih =>
    rw [List.map_cons, List.nodup_cons] at hnd
    rw [List.filter_cons, List.map_cons]
    by_cases h : r.claim_id = c
    · rw [if_pos (decide_eq_true h), List.length_cons, ih hnd.2,
        if_neg (h ▸ hnd.1), if_pos (by rw [← h]; exact List.mem_cons_self _ _)]
    · rw [if_neg (by simpa using h), ih hnd.2]
      by_cases hm : c ∈ rs.map ClaimRow.claim_id
      · rw [if_pos hm, if_pos (List.mem_cons_of_mem _ hm)]
      · rw [if_neg hm, if_neg (by
          intro hcc
          rcases List.mem_cons.mp hcc with he | hm2
          · exact h he.symm
          · exact hm hm2)]

theorem mergeTx_eq_filter {α : Type} (cid : α → String) (txns : List α)
    (rows : List ClaimRow) (hnd : (rows.map ClaimRow.claim_id).Nodup) :
    mergeTx cid txns rows =
      txns.filter fun t => decide (cid t ∈ rows.map ClaimRow.claim_id) := by
  induction txns with
  | nil => simp [mergeTx]
  | cons u us ih =>
    unfold mergeTx at ih ⊢
    rw [List.flatMap_cons, List.map_const', List.filter_cons, ih]
    by_cases h : cid u ∈ rows.map ClaimRow.claim_id
    · rw [length_filter_ids rows (cid u) hnd, if_pos h, if_pos (decide_eq_true h)]
      rfl
    · rw [length_filter_ids rows (cid u) hnd, if_neg h, if_neg (by simpa using h)]
      rfl

theorem attritional_sublist (cfg : SweepCfg) (df : List ClaimRow)
    (hinc : 0 ≤ cfg.increment) {i j : Nat} (hij : i ≤ j) :
    List.Sublist (attritional_claims cfg df j) (attritional_claims cfg df i) := by
  unfold attritional_claims
  have h := one_percent_index_mono cfg df.length hinc hij
  rw [show one_percent_index cfg df.length j =
    one_percent_index cfg df.length i
      + (one_percent_index cfg df.length j - one_percent_index cfg df.length i) from by omega]
  rw [← List.drop_drop]
  exact List.drop_sublist _ _

theorem attritional_nodup_ids (cfg : SweepCfg) (df : List ClaimRow)
    (hnd : (df.map ClaimRow.claim_id).Nodup) (i : Nat) :
    ((attritional_claims cfg df i).map ClaimRow.claim_id).Nodup := by
  have hperm : List.Perm ((sort_values df).map ClaimRow.claim_id)
      (df.map ClaimRow.claim_id) :=
    (List.perm_insertionSort claimGE df).map ClaimRow.claim_id
  have hsorted : ((sort_values df).map ClaimRow.claim_id).Nodup := hperm.nodup_iff.mpr hnd
  exact ((List.drop_sublist _ _).map ClaimRow.claim_id).nodup hsorted

theorem sweep_sets_unchanged (cfg : SweepCfg) (df : List ClaimRow) (p : List PaidTxn)
    (o : List OcrTxn) : ∀ i, (∀ j, j ≤ i → one_percent_index cfg df.length j = 0) →
    sweep_sets cfg df p o i = (p, o) := by
  intro i
  induction i with
  | zero => intro _; exact sweep_sets_zero cfg df p o
  | succ i ih =>
    intro h
    rw [sweep_sets_step]
    unfold step_filter
    rw [if_neg (by rw [h (i + 1) (le_refl _)]; omega)]
    exact ih fun j hj => h j (le_trans hj (Nat.le_succ i))

/-- When every claim_id has a single aggregated row, the cumulative merges
    collapse to the plain restriction of the original transaction tables
    to the claims retained at the current step. -/
theorem sweep_sets_restriction (cfg : SweepCfg) (df : List ClaimRow) (p : List PaidTxn)
    (o : List OcrTxn) (hnd : (df.map ClaimRow.claim_id).Nodup)
    (hinc : 0 ≤ cfg.increment) : ∀ i, 0 < one_percent_index cfg df.length i →
    (sweep_sets cfg df p o i).1 =
      p.filter (fun t => decide (t.claim_id ∈ (attritional_claims cfg df i).map
        ClaimRow.claim_id)) ∧
    (sweep_sets cfg df p o i).2 =
      o.filter (fun t => decide (t.claim_id ∈ (attritional_claims cfg df i).map
        ClaimRow.claim_id)) := by
  intro i
  induction i with
  | zero =>
    intro hpos
    rw [one_percent_index_zero] at hpos
    omega
  | succ i ih =>
    intro hpos
    have hsub : ∀ c, c ∈ (attritional_claims cfg df (i + 1)).map ClaimRow.claim_id →
        c ∈ (attritional_claims cfg df i).map ClaimRow.claim_id := by
      intro c hc
      exact ((attritional_sublist cfg df hinc (Nat.le_succ i)).map ClaimRow.claim_id).mem hc
    constructor
    · rw [sweep_sets_fst, if_pos hpos,
        mergeTx_eq_filter PaidTxn.claim_id _ _ (attritional_nodup_ids cfg df hnd (i + 1))]
      by_cases hp : 0 < one_percent_index cfg df.length i
      · rw [(ih hp).1, List.filter_filter]
        refine List.filter_congr fun t _ => ?_
        by_cases hm : t.claim_id ∈ (attritional_claims cfg df (i + 1)).map ClaimRow.claim_id
        · simp [hm, hsub _ hm]
        · simp [hm]
      · have hall : ∀ j, j ≤ i → one_percent_index cfg df.length j = 0 := by
          intro j hj
          have := one_percent_index_mono cfg df.length hinc hj
          omega
        rw [sweep_sets_unchanged cfg df p o i hall]
    · rw [sweep_sets_snd, if_pos hpos,
        mergeTx_eq_filter OcrTxn.claim_id _ _ (attritional_nodup_ids cfg df hnd (i + 1))]
      by_cases hp : 0 < one_percent_index cfg df.length i
      · rw [(ih hp).2, List.filter_filter]
        refine List.filter_congr fun t _ => ?_
        by_cases hm : t.claim_id ∈ (attritional_claims cfg df (i + 1)).map ClaimRow.claim_id
        · simp [hm, hsub _ hm]
        · simp [hm]
      · have hall : ∀ j, j ≤ i → one_percent_index cfg df.length j = 0 := by
          intro j hj
          have := one_percent_index_mono cfg df.length hinc hj
          omega
        rw [sweep_sets_unchanged cfg df p o i hall]

/-- C10 counterexample: at step 2 of the 3/10 sweep the paid transaction
    of retained claim "a" appears with multiplicity 4 (the two merging
    steps each duplicate it per matching aggregated row), while the
    number of retained aggregated rows sharing claim_id "a" at step 2 is
    2 — the claimed single-step multiplicity is wrong for cumulative
    merges. -/
theorem C10_counterexample :
    (sweep_sets exCfg exRows exPaid exOcr 2).1.count ⟨"a", "s", some 0, 1, 5, 0⟩ = 4 ∧
    ((attritional_claims exCfg exRows 2).filter fun r =>
      decide (r.claim_id = "a")).length = 2 ∧
    (4 : Nat) ≠ 2 := by
  have h1 : Int.toNat 1 = 1 := rfl
  have h2 : Int.toNat 2 = 2 := rfl
  refine ⟨?_, ?_, by omega⟩
  · norm_num [sweep_sets, step_filter, one_percent_index, attritional_claims, sort_values,
      exCfg, exRows, exPaid, exOcr, mergeTx, List.insertionSort, List.orderedInsert, claimGE,
      List.filter_cons, List.flatMap_cons, List.count_cons, h1, h2, List.replicate]
  · norm_num [one_percent_index, attritional_claims, sort_values, exCfg, exRows,
      List.insertionSort, List.orderedInsert, claimGE, List.filter_cons, h2]

/-- C10 amended: with a positive cutoff the step's tables are the
    previous step's tables inner-merged on claim_id against the retained
    rows; a transaction's multiplicity after step i is its original
    multiplicity times the product over all merging steps so far of the
    number of retained rows sharing its claim_id (multiplicities compound
    across steps); and when every claim_id has a single aggregated row the
    step-i tables are the plain restriction of the original tables to the
    step-i retained claims. -/
theorem C10_merge_semantics (cfg : SweepCfg) (df : List ClaimRow) (p : List PaidTxn)
    (o : List OcrTxn) (t : PaidTxn) (u : OcrTxn) (i : Nat) :
    (0 < one_percent_index cfg df.length (i + 1) →
      (sweep_sets cfg df p o (i + 1)).1 =
        mergeTx PaidTxn.claim_id (sweep_sets cfg df p o i).1
          (attritional_claims cfg df (i + 1)) ∧
      (sweep_sets cfg df p o (i + 1)).2 =
        mergeTx OcrTxn.claim_id (sweep_sets cfg df p o i).2
          (attritional_claims cfg df (i + 1))) ∧
    (sweep_sets cfg df p o i).1.count t =
      p.count t * ∏ j ∈ Finset.range (i + 1),
        (if 0 < one_percent_index cfg df.length j
          then ((attritional_claims cfg df j).filter fun r =>
            decide (r.claim_id = t.claim_id)).length
          else 1) ∧
    (sweep_sets cfg df p o i).2.count u =
      o.count u * ∏ j ∈ Finset.range (i + 1),
        (if 0 < one_percent_index cfg df.length j
          then ((attritional_claims cfg df j).filter fun r =>
            decide (r.claim_id = u.claim_id)).length
          else 1) ∧
    ((df.map ClaimRow.claim_id).Nodup → 0 ≤ cfg.increment →
      0 < one_percent_index cfg df.length i →
      (sweep_sets cfg df p o i).1 =
        p.filter (fun v => decide (v.claim_id ∈ (attritional_claims cfg df i).map
          ClaimRow.claim_id)) ∧
      (sweep_sets cfg df p o i).2 =
        o.filter (fun v => decide (v.claim_id ∈ (attritional_claims cfg df i).map
          ClaimRow.claim_id))) :=
  ⟨fun h => ⟨by rw [sweep_sets_fst, if_pos h], by rw [sweep_sets_snd, if_pos h]⟩,
   (count_sweep_sets cfg df p o t u i).1,
   (count_sweep_sets cfg df p o t u i).2,
   fun hnd hinc hpos => sweep_sets_restriction cfg df p o hnd hinc i hpos⟩

/-- C10 witness: the merge recurrence at the concrete input, step 1. -/
theorem C10_merge_semantics_witness :
    (sweep_sets exCfg exRows exPaid exOcr 1).1 =
      mergeTx PaidTxn.claim_id (sweep_sets exCfg exRows exPaid exOcr 0).1
        (attritional_claims exCfg exRows 1) :=
  ((C10_merge_semantics exCfg exRows exPaid exOcr
      ⟨"a", "s", some 0, 1, 5, 0⟩ ⟨"a", "s", some 0, 1, 5, 0⟩ 0).1
    (by norm_num [one_percent_index, exCfg, exRows])).1

theorem map_except_ok (f : Nat → Except Unit ℚ) : ∀ l : List Nat,
    (∀ i ∈ l, (f i).isOk = true) →
    map_except f l = Except.ok (l.map fun i => ok_value (f i)) := by
  intro l
  induction l with
  | nil => intro _; rfl
  | cons i is ih =>
    intro h
    have hi := h i (List.mem_cons_self i is)
    unfold map_except
    cases hfi : f i with
    | error e => rw [hfi] at hi; simp [Except.isOk, Except.toBool] at hi
    | ok q =>
      rw [ih fun j hj => h j (List.mem_cons_of_mem i hj)]
      simp [ok_value, hfi]

theorem map_except_error (f : Nat → Except Unit ℚ) : ∀ (l : List Nat) (j : Nat),
    j ∈ l → f j = Except.error () → map_except f l = Except.error () := by
  intro l
  induction l with
  | nil => intro j hj; exact absurd hj (List.not_mem_nil j)
  | cons i is ih =>
    intro j hj herr
    unfold map_except
    rcases List.mem_cons.mp hj with he | hm
    · subst he
      rw [herr]
    · cases hfi : f i with
      | error e => rfl
      | ok q => rw [ih j hm herr]

/-- C6 counterexample: with an engine that fails at step 1 (and would
    succeed at steps 0 and 2), the notebook's sweep — which has no
    try/except — aborts with the error instead of recording an undefined
    metric and continuing: no SweepPoint series is produced at all. -/
theorem C6_counterexample :
    code_sweep failing_engine cfg3 df3 p3 o3 = Except.error () ∧
    step_metric failing_engine cfg3 df3 p3 o3 0 = Except.ok 3 ∧
    step_metric failing_engine cfg3 df3 p3 o3 2 = Except.ok 1 := by
  have h1 : Int.toNat 1 = 1 := rfl
  have h2 : Int.toNat 2 = 2 := rfl
  refine ⟨?_, ?_, ?_⟩ <;>
    norm_num [code_sweep, map_except, step_metric, failing_engine, sweep_sets, step_filter,
      one_percent_index, attritional_claims, sort_values, cfg3, df3, p3, o3, mergeTx,
      List.insertionSort, List.orderedInsert, claimGE, List.filter_cons, List.flatMap_cons,
      List.range_succ, h1, h2, List.replicate]

/-- C6 amended: per-step errors are not caught: when every step's
    triangle/Mack call succeeds the sweep records one metric per step,
    and a failing step aborts the whole segment sweep with the error,
    recording nothing. -/
theorem C6_error_propagation (E : List PaidTxn → List OcrTxn → Except Unit ℚ)
    (cfg : SweepCfg) (df : List ClaimRow) (p : List PaidTxn) (o : List OcrTxn) :
    ((∀ i, i < cfg.interval + 1 → (step_metric E cfg df p o i).isOk = true) →
      code_sweep E cfg df p o =
        Except.ok ((List.range (cfg.interval + 1)).map fun i =>
          ok_value (step_metric E cfg df p o i))) ∧
    (∀ j, j < cfg.interval + 1 → step_metric E cfg df p o j = Except.error () →
      code_sweep E cfg df p o = Except.error ()) :=
  ⟨fun h => map_except_ok _ _ fun i hi => h i (List.mem_range.mp hi),
   fun j hj herr => map_except_error _ _ j (List.mem_range.mpr hj) herr⟩

/-- C6 witness: the all-success branch of the amended theorem at the
    concrete three-step input. -/
theorem C6_error_propagation_witness :
    code_sweep ok_engine cfg3 df3 p3 o3 =
      Except.ok ((List.range 3).map fun i =>
        ok_value (step_metric ok_engine cfg3 df3 p3 o3 i)) :=
  (C6_error_propagation ok_engine cfg3 df3 p3 o3).1 fun _ _ => rfl

/- Claim aggregator lemmas -/
theorem group_keys_nodup (ks : List GroupKey) : (group_keys ks).Nodup :=
  (List.perm_insertionSort keyLE ks.dedup).nodup_iff.mpr (List.nodup_dedup ks)

theorem mem_group_keys (ks : List GroupKey) (k : GroupKey) :
    k ∈ group_keys ks ↔ k ∈ ks := by
  rw [group_keys, (List.perm_insertionSort keyLE ks.dedup).mem_iff, List.mem_dedup]

theorem nodup_filter_eq (l : List GroupKey) (hnd : l.Nodup) (k : GroupKey) (hk : k ∈ l) :
    l.filter (fun x => decide (x = k)) = [k] := by
  induction l with
  | nil => exact absurd hk (List.not_mem_nil k)
  | cons a as ih =>
    rw [List.nodup_cons] at hnd
    rw [List.filter_cons]
    by_cases h : a = k
    · subst h
      rw [if_pos (by simp)]
      rw [List.filter_eq_nil_iff.mpr fun x hx => by
        simp only [decide_eq_true_eq]
        intro he
        exact hnd.1 (he ▸ hx)]
    · rw [if_neg (by simpa using h)]
      exact ih hnd.2 (by rcases List.mem_cons.mp hk with he | hm; exact absurd he.symm h; exact hm)

theorem ocr_claims_filter_key (ocr : List OcrTxn) (k : GroupKey) (hk2 : k.2.2 ≠ none)
    (hmem : k ∈ ocr.map ocrKey) :
    (ocr_claims ocr).filter (fun r => decide (rowKey r = k)) =
      [⟨k.1, k.2.1, k.2.2,
        list_max ((ocr.filter fun t => decide (ocrKey t = k)).map OcrTxn.gross_ocr),
        list_max ((ocr.filter fun t => decide (ocrKey t = k)).map OcrTxn.net_ocr)⟩] := by
  unfold ocr_claims
  rw [List.filter_map]
  have hkeys : ((group_keys (ocr.map ocrKey)).filter fun x => decide (x.2.2 ≠ none)).filter
      ((fun r => decide (rowKey r = k)) ∘ fun x =>
        (⟨x.1, x.2.1, x.2.2,
          list_max ((ocr.filter fun t => decide (ocrKey t = x)).map OcrTxn.gross_ocr),
          list_max ((ocr.filter fun t => decide (ocrKey t = x)).map OcrTxn.net_ocr)⟩ :
            ClaimRow)) = [k] := by
    have hre : ∀ x : GroupKey, ((fun r => decide (rowKey r = k)) ∘ fun x =>
        (⟨x.1, x.2.1, x.2.2,
          list_max ((ocr.filter fun t => decide (ocrKey t = x)).map OcrTxn.gross_ocr),
          list_max ((ocr.filter fun t => decide (ocrKey t = x)).map OcrTxn.net_ocr)⟩ :
            ClaimRow)) x = decide (x = k) := fun x => rfl
    rw [List.filter_congr fun x _ => hre x]
    refine nodup_filter_eq _ ((group_keys_nodup _).filter _) k (List.mem_filter.mpr
      ⟨(mem_group_keys _ k).mpr hmem, decide_eq_true hk2⟩)
  rw [hkeys, List.map_cons, List.map_nil]

theorem paid_claims_filter_key (paid : List PaidTxn) (k : GroupKey) (hk2 : k.2.2 ≠ none)
    (hmem : k ∈ paid.map paidKey) :
    (paid_claims paid).filter (fun r => decide (rowKey r = k)) =
      [⟨k.1, k.2.1, k.2.2,
        ((paid.filter fun t => decide (paidKey t = k)).map PaidTxn.gross_paid).sum,
        ((paid.filter fun t => decide (paidKey t = k)).map PaidTxn.net_paid).sum⟩] := by
  unfold paid_claims
  rw [List.filter_map]
  have hkeys : ((group_keys (paid.map paidKey)).filter fun x => decide (x.2.2 ≠ none)).filter
      ((fun r => decide (rowKey r = k)) ∘ fun x =>
        (⟨x.1, x.2.1, x.2.2,
          ((paid.filter fun t => decide (paidKey t = x)).map PaidTxn.gross_paid).sum,
          ((paid.filter fun t => decide (paidKey t = x)).map PaidTxn.net_paid).sum⟩ :
            ClaimRow)) = [k] := by
    have hre : ∀ x : GroupKey, ((fun r => decide (rowKey r = k)) ∘ fun x =>
        (⟨x.1, x.2.1, x.2.2,
          ((paid.filter fun t => decide (paidKey t = x)).map PaidTxn.gross_paid).sum,
          ((paid.filter fun t => decide (paidKey t = x)).map PaidTxn.net_paid).sum⟩ :
            ClaimRow)) x = decide (x = k) := fun x => rfl
    rw [List.filter_congr fun x _ => hre x]
    refine nodup_filter_eq _ ((group_keys_nodup _).filter _) k (List.mem_filter.mpr
      ⟨(mem_group_keys _ k).mpr hmem, decide_eq_true hk2⟩)
  rw [hkeys, List.map_cons, List.map_nil]

theorem ocr_claims_dated (ocr : List OcrTxn) : ∀ r ∈ ocr_claims ocr, r.loss_date ≠ none := by
  intro r hr
  unfold ocr_claims at hr
  obtain ⟨k, hk, he⟩ := List.mem_map.mp hr
  have hd := of_decide_eq_true (List.mem_filter.mp hk).2
  rw [← he]
  exact hd

theorem paid_claims_dated (paid : List PaidTxn) :
    ∀ r ∈ paid_claims paid, r.loss_date ≠ none := by
  intro r hr
  unfold paid_claims at hr
  obtain ⟨k, hk, he⟩ := List.mem_map.mp hr
  have hd := of_decide_eq_true (List.mem_filter.mp hk).2
  rw [← he]
  exact hd

/-- C7: the Claim Aggregator produces exactly one ClaimRecord per
    (claim_id, segment, loss_date) key (the filter of combined_df on the
    key is a singleton), its incurred amount is the maximum observed
    reserve amount plus the sum of the paid amounts (the code adds the
    reserve aggregate first; addition is commutative), and every claim
    with a missing loss_date is excluded entirely from combined_df. -/
theorem C7_claim_aggregator (paid : List PaidTxn) (ocr : List OcrTxn) (c s : String) (d : Nat)
    (hp : ((c, s, some d) : GroupKey) ∈ paid.map paidKey)
    (ho : ((c, s, some d) : GroupKey) ∈ ocr.map ocrKey) :
    (combined_df paid ocr).filter (fun r => decide (rowKey r = (c, s, some d))) =
      [⟨c, s, some d,
        list_max ((ocr.filter fun t => decide (ocrKey t = (c, s, some d))).map
            OcrTxn.gross_ocr) +
          ((paid.filter fun t => decide (paidKey t = (c, s, some d))).map
            PaidTxn.gross_paid).sum,
        list_max ((ocr.filter fun t => decide (ocrKey t = (c, s, some d))).map
            OcrTxn.net_ocr) +
          ((paid.filter fun t => decide (paidKey t = (c, s, some d))).map
            PaidTxn.net_paid).sum⟩] ∧
    (∀ r ∈ combined_df paid ocr, r.loss_date ≠ none) := by
  have hk2 : (((c, s, some d) : GroupKey)).2.2 ≠ none := by simp
  have hcomb : combined_df paid ocr =
      (group_keys ((ocr_claims ocr ++ paid_claims paid).map rowKey)).map fun x =>
        (⟨x.1, x.2.1, x.2.2,
          (((ocr_claims ocr ++ paid_claims paid).filter fun r =>
            decide (rowKey r = x)).map ClaimRow.gross_amount).sum,
          (((ocr_claims ocr ++ paid_claims paid).filter fun r =>
            decide (rowKey r = x)).map ClaimRow.net_amount).sum⟩ : ClaimRow) := rfl
  have hmemall : ((c, s, some d) : GroupKey) ∈
      (ocr_claims ocr ++ paid_claims paid).map rowKey := by
    rw [List.map_append]
    refine List.mem_append.mpr (Or.inl ?_)
    unfold ocr_claims
    rw [List.map_map]
    exact List.mem_map.mpr ⟨(c, s, some d),
      List.mem_filter.mpr ⟨(mem_group_keys _ _).mpr ho, decide_eq_true hk2⟩, rfl⟩
  constructor
  · rw [hcomb, List.filter_map]
    have hre : ∀ x : GroupKey, ((fun r => decide (rowKey r = ((c, s, some d) : GroupKey))) ∘
        fun x => (⟨x.1, x.2.1, x.2.2,
          (((ocr_claims ocr ++ paid_claims paid).filter fun r =>
            decide (rowKey r = x)).map ClaimRow.gross_amount).sum,
          (((ocr_claims ocr ++ paid_claims paid).filter fun r =>
            decide (rowKey r = x)).map ClaimRow.net_amount).sum⟩ : ClaimRow)) x =
        decide (x = ((c, s, some d) : GroupKey)) := fun x => rfl
    rw [List.filter_congr fun x _ => hre x,
      nodup_filter_eq _ (group_keys_nodup _) _ ((mem_group_keys _ _).mpr hmemall),
      List.map_cons, List.map_nil, List.filter_append,
      ocr_claims_filter_key ocr _ hk2 ho, paid_claims_filter_key paid _ hk2 hp]
    simp [List.sum_cons]
  · intro r hr
    rw [hcomb] at hr
    obtain ⟨k, hk, he⟩ := List.mem_map.mp hr
    have hkmem : k ∈ (ocr_claims ocr ++ paid_claims paid).map rowKey :=
      (mem_group_keys _ _).mp hk
    obtain ⟨row, hrow, hrk⟩ := List.mem_map.mp hkmem
    have hdate : row.loss_date ≠ none := by
      rcases List.mem_append.mp hrow with hl | hl
      · exact ocr_claims_dated ocr row hl
      · exact paid_claims_dated paid row hl
    have : r.loss_date = k.2.2 := by rw [← he]
    rw [this, ← hrk]
    exact hdate

/-- C7 witness: a claim with two paid and two reserve transactions; the
    aggregated row holds max reserve 11 plus paid sum 12. -/
theorem C7_claim_aggregator_witness :
    (combined_df
        [⟨"a", "s", some 0, 1, 5, 0⟩, ⟨"a", "s", some 0, 2, 7, 0⟩]
        [⟨"a", "s", some 0, 1, 3, 0⟩, ⟨"a", "s", some 0, 2, 11, 0⟩]).filter
      (fun r => decide (rowKey r = (("a", "s", some 0) : GroupKey))) =
      [⟨"a", "s", some 0, 23, 0⟩] := by
  have h := (C7_claim_aggregator
    [⟨"a", "s", some 0, 1, 5, 0⟩, ⟨"a", "s", some 0, 2, 7, 0⟩]
    [⟨"a", "s", some 0, 1, 3, 0⟩, ⟨"a", "s", some 0, 2, 11, 0⟩]
    "a" "s" 0 (by simp [paidKey]) (by simp [ocrKey])).1
  rw [h]
  norm_num [list_max, List.filter_cons, ocrKey, paidKey]

theorem foldl_max_ge_init : ∀ (xs : List ℚ) (b : ℚ), b ≤ xs.foldl max b := by
  intro xs
  induction xs with
  | nil => intro b; exact le_refl b
  | cons z zs ih => intro b; exact le_trans (le_max_left b z) (ih (max b z))

theorem foldl_max_mem : ∀ (xs : List ℚ) (x : ℚ), xs.foldl max x ∈ x :: xs := by
  intro xs
  induction xs with
  | nil => intro x; exact List.mem_singleton.mpr rfl
  | cons y ys ih =>
    intro x
    have h := ih (max x y)
    show List.foldl max (max x y) ys ∈ x :: y :: ys
    rcases List.mem_cons.mp h with he | hm
    · rw [he]
      rcases max_choice x y with hc | hc
      · rw [hc]
        exact List.mem_cons_self _ _
      · rw [hc]
        exact List.mem_cons_of_mem _ (List.mem_cons_self _ _)
    · exact List.mem_cons_of_mem _ (List.mem_cons_of_mem _ hm)

theorem le_foldl_max : ∀ (xs : List ℚ) (x y : ℚ), y ∈ x :: xs → y ≤ xs.foldl max x := by
  intro xs
  induction xs with
  | nil =>
    intro x y hy
    rw [List.mem_singleton.mp hy]
    exact le_refl x
  | cons z zs ih =>
    intro x y hy
    show y ≤ List.foldl max (max x z) zs
    rcases List.mem_cons.mp hy with he | hm
    · rw [he]
      exact le_trans (le_max_left x z) (foldl_max_ge_init zs (max x z))
    · rcases List.mem_cons.mp hm with he2 | hm2
      · rw [he2]
        exact le_trans (le_max_right x z) (foldl_max_ge_init zs (max x z))
      · exact ih (max x z) y (List.mem_cons_of_mem _ hm2)

theorem list_max_perm {l1 l2 : List ℚ} (h : List.Perm l1 l2) : list_max l1 = list_max l2 := by
  cases l1 with
  | nil =>
    rw [List.Perm.eq_nil h.symm]
  | cons x xs =>
    cases l2 with
    | nil => exact absurd h.eq_nil (by simp)
    | cons y ys =>
      refine le_antisymm ?_ ?_
      · exact le_foldl_max ys y (list_max (x :: xs)) (h.mem_iff.mp (foldl_max_mem xs x))
      · exact le_foldl_max xs x (list_max (y :: ys)) (h.mem_iff.mpr (foldl_max_mem ys y))

theorem group_keys_perm {ks1 ks2 : List GroupKey} (h : List.Perm ks1 ks2) :
    group_keys ks1 = group_keys ks2 :=
  List.eq_of_perm_of_sorted
    ((List.perm_insertionSort keyLE ks1.dedup).trans
      (h.dedup.trans (List.perm_insertionSort keyLE ks2.dedup).symm))
    (List.sorted_insertionSort keyLE ks1.dedup)
    (List.sorted_insertionSort keyLE ks2.dedup)

theorem ocr_claims_perm {o1 o2 : List OcrTxn} (h : List.Perm o1 o2) :
    ocr_claims o1 = ocr_claims o2 := by
  unfold ocr_claims
  rw [group_keys_perm (h.map ocrKey)]
  refine List.map_congr_left fun k _ => ?_
  have hg : List.Perm ((o1.filter fun t => decide (ocrKey t = k)).map OcrTxn.gross_ocr)
      ((o2.filter fun t => decide (ocrKey t = k)).map OcrTxn.gross_ocr) :=
    (h.filter _).map _
  have hn : List.Perm ((o1.filter fun t => decide (ocrKey t = k)).map OcrTxn.net_ocr)
      ((o2.filter fun t => decide (ocrKey t = k)).map OcrTxn.net_ocr) :=
    (h.filter _).map _
  rw [list_max_perm hg, list_max_perm hn]

theorem paid_claims_perm {p1 p2 : List PaidTxn} (h : List.Perm p1 p2) :
    paid_claims p1 = paid_claims p2 := by
  unfold paid_claims
  rw [group_keys_perm (h.map paidKey)]
  refine List.map_congr_left fun k _ => ?_
  rw [((h.filter _).map PaidTxn.gross_paid).sum_eq, ((h.filter _).map PaidTxn.net_paid).sum_eq]

theorem combined_df_perm {p1 p2 : List PaidTxn} {o1 o2 : List OcrTxn}
    (hp : List.Perm p1 p2) (ho : List.Perm o1 o2) :
    combined_df p1 o1 = combined_df p2 o2 := by
  unfold combined_df
  rw [ocr_claims_perm ho, paid_claims_perm hp]

theorem sweep_sets_perm (cfg : SweepCfg) (df : List ClaimRow)
    {p1 p2 : List PaidTxn} {o1 o2 : List OcrTxn}
    (hp : List.Perm p1 p2) (ho : List.Perm o1 o2) : ∀ i,
    List.Perm (sweep_sets cfg df p1 o1 i).1 (sweep_sets cfg df p2 o2 i).1 ∧
    List.Perm (sweep_sets cfg df p1 o1 i).2 (sweep_sets cfg df p2 o2 i).2 := by
  intro i
  induction i with
  | zero =>
    rw [sweep_sets_zero, sweep_sets_zero]
    exact ⟨hp, ho⟩
  | succ i ih =>
    constructor
    · rw [sweep_sets_fst, sweep_sets_fst]
      by_cases h : 0 < one_percent_index cfg df.length (i + 1)
      · rw [if_pos h, if_pos h]
        exact ih.1.flatMap_right _
      · rw [if_neg h, if_neg h]
        exact ih.1
    · rw [sweep_sets_snd, sweep_sets_snd]
      by_cases h : 0 < one_percent_index cfg df.length (i + 1)
      · rw [if_pos h, if_pos h]
        exact ih.2.flatMap_right _
      · rw [if_neg h, if_neg h]
        exact ih.2

theorem combined_triangle_perm {p1 p2 : List PaidTxn} {o1 o2 : List OcrTxn}
    (hp : List.Perm p1 p2) (ho : List.Perm o1 o2) :
    combined_triangle p1 o1 = combined_triangle p2 o2 := by
  funext oq dq
  unfold combined_triangle
  congr 1
  · unfold paid_triangle
    refine Finset.sum_congr rfl fun d _ => ?_
    unfold paid_cell
    exact ((hp.filter _).map PaidTxn.gross_paid).sum_eq
  · unfold ocr_cell
    exact ((ho.filter _).map OcrTxn.gross_ocr).sum_eq

theorem aggregate_metric_perm (se : (Nat → Nat → ℚ) → Nat → Nat → ℚ) (O D : Nat)
    {p1 p2 : List PaidTxn} {o1 o2 : List OcrTxn}
    (hp : List.Perm p1 p2) (ho : List.Perm o1 o2) :
    aggregate_metric se O D p1 o1 = aggregate_metric se O D p2 o2 := by
  unfold aggregate_metric
  rw [combined_triangle_perm hp ho]

/- Segment orchestrator lemmas -/
theorem threshold_map_foldl (E : List PaidTxn → List OcrTxn → ℚ) (cfg : SweepCfg)
    (paid : List PaidTxn) (ocr : List OcrTxn) : ∀ (l : List String) (acc : List (String × ℚ)),
    l.foldl (fun a s2 => a ++ [("Rwanda " ++ s2, run_segment E cfg paid ocr s2)]) acc =
      acc ++ l.map fun s2 => ("Rwanda " ++ s2, run_segment E cfg paid ocr s2) := by
  intro l
  induction l with
  | nil => intro acc; simp
  | cons x xs ih =>
    intro acc
    rw [List.foldl_cons, ih, List.map_cons]
    simp

/-- C9 amended: the sweep and detector are run once per segment for the
    first four segments of segment_list (in order), independently, and
    the final dict maps exactly those segments (keyed with the Rwanda
    title) to their per-segment threshold result. -/
theorem C9_first_four_segments (E : List PaidTxn → List OcrTxn → ℚ) (cfg : SweepCfg)
    (paid : List PaidTxn) (ocr : List OcrTxn) :
    (threshold_map E cfg paid ocr).map Prod.fst =
      ((segment_list ocr).take 4).map (fun s => "Rwanda " ++ s) ∧
    ∀ s ∈ (segment_list ocr).take 4,
      ("Rwanda " ++ s, run_segment E cfg paid ocr s) ∈ threshold_map E cfg paid ocr := by
  have hmap : threshold_map E cfg paid ocr =
      ((segment_list ocr).take 4).map fun s2 =>
        ("Rwanda " ++ s2, run_segment E cfg paid ocr s2) := by
    rw [threshold_map, threshold_map_foldl, List.nil_append]
  constructor
  · rw [hmap, List.map_map]
    rfl
  · intro s hs
    rw [hmap]
    exact List.mem_map.mpr ⟨s, hs, rfl⟩

/-- C9 counterexample: with five segments in the input, the segment loop
    (for segment in segment_list[:4]) runs only the first four; segment E
    is present in the input but absent from the final threshold map. -/
theorem C9_counterexample :
    segment_list ocrZ = ["A", "B", "C", "D", "E"] ∧
    (threshold_map zero_engine cfgZ [] ocrZ).map Prod.fst =
      ["Rwanda A", "Rwanda B", "Rwanda C", "Rwanda D"] ∧
    "Rwanda E" ∉ (threshold_map zero_engine cfgZ [] ocrZ).map Prod.fst := by
  have hseg : segment_list ocrZ = ["A", "B", "C", "D", "E"] := by
    norm_num [segment_list, ocr_claims, ocrZ, group_keys, List.insertionSort,
      List.orderedInsert, keyLE, optNatLE, List.dedup, List.filter_cons, uniqueFirst,
      uniqueFirstAux, ocrKey, list_max, List.pwFilter]
    decide
  have hkeys := (C9_first_four_segments zero_engine cfgZ [] ocrZ).1
  rw [hseg] at hkeys
  refine ⟨hseg, ?_, ?_⟩
  · rw [hkeys]
    rfl
  · rw [hkeys]
    decide

/-- C9 witness: the first segment of the five-segment input is mapped to
    its per-segment run result. -/
theorem C9_first_four_segments_witness :
    ("Rwanda A", run_segment zero_engine cfgZ [] ocrZ "A") ∈
      threshold_map zero_engine cfgZ [] ocrZ := by
  refine (C9_first_four_segments zero_engine cfgZ [] ocrZ).2 "A" ?_
  have hseg : segment_list ocrZ = ["A", "B", "C", "D", "E"] := by
    norm_num [segment_list, ocr_claims, ocrZ, group_keys, List.insertionSort,
      List.orderedInsert, keyLE, optNatLE, List.dedup, List.filter_cons, uniqueFirst,
      uniqueFirstAux, ocrKey, list_max, List.pwFilter]
    decide
  rw [hseg]
  decide

/-- C4: the notebook records only a percentage in threshold_percentage
    (here the retained fraction 9/10 at the detected drop, step 1), and
    its large_claims list is sliced with one_percent_index from the FINAL
    loop iteration (step 3, 30 percent exclusion), so its boundary claim
    amount is 80 — while the spec's dollar cutoff at the selected
    fraction (section 4.4, modelled by spec_dollar_cutoff) is 100.  The
    code never computes a dollar cutoff, and the one implied by its
    large-claims slice disagrees with the claim. -/
theorem C4_final_index_bug :
    threshold_percentage len_engine cfg4 df4 p4 [] = 9/10 ∧
    max_drop_index (mack_mse_series len_engine cfg4 df4 p4 []) = 1 ∧
    (large_claims cfg4 df4).map ClaimRow.gross_amount = [100, 90, 80] ∧
    spec_dollar_cutoff cfg4 df4 1 = 100 ∧
    spec_dollar_cutoff cfg4 df4 cfg4.interval = 80 ∧
    (80 : ℚ) ≠ 100 := by
  have h1 : Int.toNat 1 = 1 := rfl
  have h2 : Int.toNat 2 = 2 := rfl
  have h3 : Int.toNat 3 = 3 := rfl
  have hseries : mack_mse_series len_engine cfg4 df4 p4 [] = [10, 2, 19/10, 9/5] := by
    norm_num [mack_mse_series, List.range_succ, sweep_sets, step_filter, one_percent_index,
      attritional_claims, sort_values, cfg4, df4, p4, mergeTx, len_engine, metric_of_len,
      List.insertionSort, List.orderedInsert, claimGE, List.filter_cons, List.flatMap_cons,
      h1, h2, h3, List.replicate]
  have hmdi : max_drop_index (mack_mse_series len_engine cfg4 df4 p4 []) = 1 := by
    rw [hseries]
    norm_num [max_drop_index, mack_mse_diff, idxmax, idxmax_go, abs]
  have hsort : sort_values df4 = df4 := by
    norm_num [sort_values, df4, List.insertionSort, List.orderedInsert, claimGE]
  refine ⟨?_, hmdi, ?_, ?_, ?_, by norm_num⟩
  · rw [threshold_percentage, selected_fraction, hmdi]
    norm_num [claims_percentage, cfg4, List.range_succ]
  · rw [large_claims, hsort]
    norm_num [one_percent_index, cfg4, df4, h3]
  · rw [spec_dollar_cutoff, hsort]
    norm_num [one_percent_index, cfg4, df4, h1]
  · rw [spec_dollar_cutoff, hsort]
    norm_num [one_percent_index, cfg4, df4, h3]

/-- Two gross-amount-sorted permutations of the same rows are equal when
    no two rows share a gross amount: without ties the sort-by-amount
    contract determines the output uniquely. -/
theorem sorted_perm_eq_of_distinct : ∀ (l1 l2 : List ClaimRow), List.Perm l1 l2 →
    List.Pairwise claimGE l1 → List.Pairwise claimGE l2 →
    (∀ a ∈ l1, ∀ b ∈ l1, a.gross_amount = b.gross_amount → a = b) → l1 = l2 := by
  intro l1
  induction l1 with
  | nil =>
    intro l2 hp _ _ _
    exact (List.Perm.eq_nil hp.symm).symm
  | cons x xs ih =>
    intro l2 hp s1 s2 inj
    cases l2 with
    | nil => exact absurd hp.eq_nil (by simp)
    | cons y ys =>
      rw [List.pairwise_cons] at s1 s2
      have hxy : x = y := by
        rcases List.mem_cons.mp (hp.mem_iff.mp (List.mem_cons_self x xs)) with he | hx2
        · exact he
        · rcases List.mem_cons.mp (hp.mem_iff.mpr (List.mem_cons_self y ys)) with he2 | hy2
          · exact he2.symm
          · have h1 : x.gross_amount ≤ y.gross_amount := s2.1 x hx2
            have h2 : y.gross_amount ≤ x.gross_amount := s1.1 y hy2
            exact inj x (List.mem_cons_self _ _) y (List.mem_cons_of_mem _ hy2)
              (le_antisymm h1 h2)
      subst hxy
      rw [ih ys hp.cons_inv s1.2 s2.2
        fun a ha b hb => inj a (List.mem_cons_of_mem _ ha) b (List.mem_cons_of_mem _ hb)]

/-- With pairwise-distinct gross amounts, every admissible output of the
    code's sort call equals the model's sort_values. -/
theorem sorted_values_unique_of_distinct (l out : List ClaimRow)
    (h : is_sort_values_output l out)
    (inj : ∀ a ∈ l, ∀ b ∈ l, a.gross_amount = b.gross_amount → a = b) :
    out = sort_values l := by
  refine sorted_perm_eq_of_distinct out (sort_values l)
    (h.1.trans (List.perm_insertionSort claimGE l).symm) h.2
    (List.sorted_insertionSort claimGE l) ?_
  intro a ha b hb
  exact inj a (h.1.subset ha) b (h.1.subset hb)

/-- C8 counterexample: on two rows with equal gross amounts, both orders
    satisfy everything the code's sort call guarantees (a permutation,
    non-increasing in gross_amount); one admissible output has its tie in
    claim_id-descending order, refuting the claimed claim_id tie-break,
    and the two admissible outputs already disagree on the excluded claim
    at a cutoff of one. -/
theorem C8_counterexample :
    is_sort_values_output
      [⟨"a", "s", some 0, 10, 0⟩, ⟨"b", "s", some 0, 10, 0⟩]
      [⟨"b", "s", some 0, 10, 0⟩, ⟨"a", "s", some 0, 10, 0⟩] ∧
    is_sort_values_output
      [⟨"a", "s", some 0, 10, 0⟩, ⟨"b", "s", some 0, 10, 0⟩]
      [⟨"a", "s", some 0, 10, 0⟩, ⟨"b", "s", some 0, 10, 0⟩] ∧
    ¬ List.Pairwise lexDesc
      [(⟨"b", "s", some 0, 10, 0⟩ : ClaimRow), ⟨"a", "s", some 0, 10, 0⟩] ∧
    ([(⟨"b", "s", some 0, 10, 0⟩ : ClaimRow), ⟨"a", "s", some 0, 10, 0⟩].take 1 ≠
      [(⟨"a", "s", some 0, 10, 0⟩ : ClaimRow), ⟨"b", "s", some 0, 10, 0⟩].take 1) := by
  refine ⟨⟨List.Perm.swap _ _ _, ?_⟩, ⟨List.Perm.refl _, ?_⟩, ?_, ?_⟩
  · norm_num [List.pairwise_cons, claimGE]
  · norm_num [List.pairwise_cons, claimGE]
  · intro h
    have hrel := List.rel_of_pairwise_cons h (List.mem_cons_self _ _)
    rcases hrel with hlt | ⟨_, hle⟩
    · exact absurd hlt (lt_irrefl _)
    · exact absurd (String.le_iff_toList_le.mp hle) (by decide)
  · intro h
    simp [ClaimRow.mk.injEq] at h

/-- C8 amended: the code sorts descending on gross_amount alone with no
    tie-break key, so its guarantee is only is_sort_values_output; still,
    combined_df is canonicalised by the groupby key and is identical
    across any two runs on the same transaction populations, and whenever
    the segment's gross amounts are pairwise distinct the admissible
    sorted order is unique, so the excluded claims at every fraction, the
    metric series under the triangle/Mack adapter, the recorded
    threshold_percentage and the large-claims list are identical across
    the two runs. -/
theorem C8_sort_contract_determinism (paid1 paid2 : List PaidTxn) (ocr1 ocr2 : List OcrTxn)
    (hp : List.Perm paid1 paid2) (ho : List.Perm ocr1 ocr2) (s : String) (cfg : SweepCfg)
    (se : (Nat → Nat → ℚ) → Nat → Nat → ℚ) (O D : Nat)
    (hdist : ∀ a ∈ (combined_df paid1 ocr1).filter (fun r => decide (r.segment = s)),
      ∀ b ∈ (combined_df paid1 ocr1).filter (fun r => decide (r.segment = s)),
        a.gross_amount = b.gross_amount → a = b) :
    combined_df paid1 ocr1 = combined_df paid2 ocr2 ∧
    List.Pairwise claimGE (sort_values ((combined_df paid1 ocr1).filter fun r =>
      decide (r.segment = s))) ∧
    (∀ out, is_sort_values_output ((combined_df paid1 ocr1).filter fun r =>
        decide (r.segment = s)) out →
      out = sort_values ((combined_df paid1 ocr1).filter fun r =>
        decide (r.segment = s))) ∧
    (∀ i, attritional_claims cfg ((combined_df paid1 ocr1).filter fun r =>
        decide (r.segment = s)) i =
      attritional_claims cfg ((combined_df paid2 ocr2).filter fun r =>
        decide (r.segment = s)) i) ∧
    mack_mse_series (adapter_engine se O D) cfg
      ((combined_df paid1 ocr1).filter fun r => decide (r.segment = s))
      (paid1.filter fun t => decide (t.segment = s))
      (ocr1.filter fun t => decide (t.segment = s)) =
    mack_mse_series (adapter_engine se O D) cfg
      ((combined_df paid2 ocr2).filter fun r => decide (r.segment = s))
      (paid2.filter fun t => decide (t.segment = s))
      (ocr2.filter fun t => decide (t.segment = s)) ∧
    threshold_percentage (adapter_engine se O D) cfg
      ((combined_df paid1 ocr1).filter fun r => decide (r.segment = s))
      (paid1.filter fun t => decide (t.segment = s))
      (ocr1.filter fun t => decide (t.segment = s)) =
    threshold_percentage (adapter_engine se O D) cfg
      ((combined_df paid2 ocr2).filter fun r => decide (r.segment = s))
      (paid2.filter fun t => decide (t.segment = s))
      (ocr2.filter fun t => decide (t.segment = s)) ∧
    large_claims cfg ((combined_df paid1 ocr1).filter fun r => decide (r.segment = s)) =
      large_claims cfg ((combined_df paid2 ocr2).filter fun r => decide (r.segment = s)) := by
  have hcdf : combined_df paid1 ocr1 = combined_df paid2 ocr2 := combined_df_perm hp ho
  have hseries : mack_mse_series (adapter_engine se O D) cfg
      ((combined_df paid1 ocr1).filter fun r => decide (r.segment = s))
      (paid1.filter fun t => decide (t.segment = s))
      (ocr1.filter fun t => decide (t.segment = s)) =
    mack_mse_series (adapter_engine se O D) cfg
      ((combined_df paid2 ocr2).filter fun r => decide (r.segment = s))
      (paid2.filter fun t => decide (t.segment = s))
      (ocr2.filter fun t => decide (t.segment = s)) := by
    rw [← hcdf]
    refine List.map_congr_left fun i _ => ?_
    have hsp := sweep_sets_perm cfg ((combined_df paid1 ocr1).filter fun r =>
        decide (r.segment = s)) (hp.filter fun t => decide (t.segment = s))
      (ho.filter fun t => decide (t.segment = s)) i
    exact aggregate_metric_perm se O D hsp.1 hsp.2
  refine ⟨hcdf, List.sorted_insertionSort claimGE _,
    fun out hout => sorted_values_unique_of_distinct _ out hout hdist,
    fun i => by rw [hcdf], hseries, ?_, by rw [hcdf]⟩
  unfold threshold_percentage
  rw [hseries]

/-- C8 witness: two opposite row orders of a small population whose
    aggregated gross amounts (5, 6, 2) are pairwise distinct. -/
theorem C8_sort_contract_determinism_witness :
    combined_df [⟨"a", "s", some 0, 1, 5, 0⟩, ⟨"b", "s", some 0, 1, 6, 0⟩]
        [⟨"c", "s", some 0, 1, 2, 0⟩] =
      combined_df [⟨"b", "s", some 0, 1, 6, 0⟩, ⟨"a", "s", some 0, 1, 5, 0⟩]
        [⟨"c", "s", some 0, 1, 2, 0⟩] := by
  have hab : (['a'] : List Char) < ['b'] := by decide
  have hba : ¬ (['b'] : List Char) < ['a'] := by decide
  have hca : ¬ (['c'] : List Char) < ['a'] := by decide
  have hcb : ¬ (['c'] : List Char) < ['b'] := by decide
  have nab : ("a" : String) ≠ "b" := by decide
  have nac : ("a" : String) ≠ "c" := by decide
  have nbc : ("b" : String) ≠ "c" := by decide
  have nba : ("b" : String) ≠ "a" := by decide
  have nca : ("c" : String) ≠ "a" := by decide
  have ncb : ("c" : String) ≠ "b" := by decide
  have hdf : (combined_df [⟨"a", "s", some 0, 1, 5, 0⟩, ⟨"b", "s", some 0, 1, 6, 0⟩]
      [⟨"c", "s", some 0, 1, 2, 0⟩]).filter (fun r => decide (r.segment = "s")) =
      [⟨"a", "s", some 0, 5, 0⟩, ⟨"b", "s", some 0, 6, 0⟩, ⟨"c", "s", some 0, 2, 0⟩] := by
    have ho : ocr_claims [⟨"c", "s", some 0, 1, 2, 0⟩] = [⟨"c", "s", some 0, 2, 0⟩] := by
      norm_num [ocr_claims, group_keys, List.insertionSort, List.orderedInsert, keyLE,
        optNatLE, List.dedup, List.filter_cons, ocrKey, list_max, List.pwFilter,
        Option.some_ne_none, Prod.mk.injEq, Option.some.injEq]
    have hpc : paid_claims [⟨"a", "s", some 0, 1, 5, 0⟩, ⟨"b", "s", some 0, 1, 6, 0⟩] =
        [⟨"a", "s", some 0, 5, 0⟩, ⟨"b", "s", some 0, 6, 0⟩] := by
      norm_num [paid_claims, group_keys, List.insertionSort, List.orderedInsert, keyLE,
        optNatLE, List.dedup, List.filter_cons, paidKey, List.pwFilter,
        Option.some_ne_none, Prod.mk.injEq, Option.some.injEq, hab, nab, nba]
    rw [combined_df, ho, hpc]
    norm_num [group_keys, List.insertionSort, List.orderedInsert, keyLE, optNatLE,
      List.dedup, List.filter_cons, rowKey, List.pwFilter, Option.some_ne_none,
      Prod.mk.injEq, Option.some.injEq, hab, hba, hca, hcb, nab, nac, nbc, nba, nca, ncb]
  refine (C8_sort_contract_determinism
    [⟨"a", "s", some 0, 1, 5, 0⟩, ⟨"b", "s", some 0, 1, 6, 0⟩]
    [⟨"b", "s", some 0, 1, 6, 0⟩, ⟨"a", "s", some 0, 1, 5, 0⟩]
    [⟨"c", "s", some 0, 1, 2, 0⟩] [⟨"c", "s", some 0, 1, 2, 0⟩]
    (List.Perm.swap _ _ _) (List.Perm.refl _) "s" ⟨1, 1/100, 30⟩
    (fun T => T) 4 4 ?_).1
  intro a ha b hb hab
  rw [hdf] at ha hb
  fin_cases ha <;> fin_cases hb <;>
    first
      | rfl
      | (exfalso; norm_num at hab)
